import Mathlib

/-!
# Verification of the simeon report-generation core

A shallow embedding of the transformation engine of the `simeon` package
(course-axis construction, schema enforcement and pruning, the
user-info-combo multi-source join, the per-field normalization of the
tabular report generators, and the gpg decryption wrapper), together with
proofs and refutations of the specification claims about it.

File layout:
* `Py` namespace: executable models of the Python string primitives used by
  the source (`str.split`, `str.lstrip`, substring membership `in`,
  `str.replace`, `str.join`, `str.strip`, `str.lower`).
* `Simeon` namespace: the embedded program, mirroring
  `simeon/report/utilities.py` and `simeon/download/aws.py`.
* theorems settling claims C1-C10.
-/

namespace Py

/-- Python `sep.join`, over lists of characters. -/
def joinSep (sep : List Char) : List (List Char) → List Char
  | [] => []
  | [s] => s
  | s :: rest => s ++ sep ++ joinSep sep rest

/-- One step of Python `str.split(sep)` for a non-empty separator
`s0 :: srest`: the chunk before the first separator occurrence and the
remainder after it, if any. -/
def splitChunk (s0 : Char) (srest : List Char) : List Char → List Char × Option (List Char)
  | [] => ([], none)
  | c :: cs =>
    if (s0 :: srest).isPrefixOf (c :: cs) then
      ([], some (List.drop srest.length cs))
    else
      (c :: (splitChunk s0 srest cs).1, (splitChunk s0 srest cs).2)

theorem splitChunk_rest_length (s0 : Char) (srest : List Char) :
    ∀ cs r, (splitChunk s0 srest cs).2 = some r → r.length < cs.length := by
  intro cs
  induction cs with
  | nil => intro r h; simp [splitChunk] at h
  | cons c cs ih =>
    intro r h
    simp only [splitChunk] at h
    by_cases hp : (s0 :: srest).isPrefixOf (c :: cs)
    · simp only [hp, if_pos] at h
      have hr : List.drop srest.length cs = r := by
        exact Option.some.inj h
      have hd : (List.drop srest.length cs).length = cs.length - srest.length :=
        List.length_drop srest.length cs
      rw [hr] at hd
      simp only [List.length_cons]
      omega
    · simp only [hp, if_neg, not_false_iff] at h
      have := ih r h
      simp only [List.length_cons]
      omega

/-- Python `str.split(sep)` for a non-empty separator `s0 :: srest`:
splits at every occurrence, keeping empty chunks. -/
def splitSep (s0 : Char) (srest : List Char) (s : List Char) : List (List Char) :=
  match h : splitChunk s0 srest s with
  | (chunk, none) => [chunk]
  | (chunk, some rest) => chunk :: splitSep s0 srest rest
termination_by s.length
decreasing_by
  exact splitChunk_rest_length s0 srest s rest (by rw [h])

/-- Python `str.split(sep, maxsplit)`: at most `n` splits, remainder kept
whole. -/
def splitSepMax (s0 : Char) (srest : List Char) : Nat → List Char → List (List Char)
  | 0, s => [s]
  | n + 1, s =>
    match h : splitChunk s0 srest s with
    | (chunk, none) => [chunk]
    | (chunk, some rest) => chunk :: splitSepMax s0 srest n rest

/-- Python substring membership `sub in s` (for non-empty `sub`). -/
def containsSub (sub : List Char) : List Char → Bool
  | [] => sub.isEmpty
  | c :: cs => sub.isPrefixOf (c :: cs) || containsSub sub cs

/-- Python `str.replace(old, new)` for non-empty `old`: split on `old`
and join with `new`. -/
def replaceSub (o0 : Char) (orest new s : List Char) : List Char :=
  joinSep new (splitSep o0 orest s)

/-- Python `str.lstrip(chars)`: drop leading characters belonging to the
set `chars`. -/
def lstripChars (chars : List Char) (s : List Char) : List Char :=
  s.dropWhile (fun c => chars.contains c)

/-- Characters Python `str.strip()` removes. -/
def isPySpace (c : Char) : Bool :=
  c == ' ' || c == '\t' || c == '\n' || c == '\x0d' || c == '\x0b' || c == '\x0c'

/-- Python `str.strip()` (no argument): trim whitespace on both ends. -/
def stripWs (s : List Char) : List Char :=
  ((s.dropWhile isPySpace).reverse.dropWhile isPySpace).reverse

/-- Maximal runs of decimal digits in a string: `re.findall(r"[0-9]+", s)`. -/
def digitRuns : List Char → List (List Char)
  | [] => []
  | c :: cs =>
    if c.isDigit then
      match digitRuns cs with
      | [] => [[c]]
      | r :: rs =>
        match cs with
        | [] => [[c]]
        | c' :: _ => if c'.isDigit then (c :: r) :: rs else [c] :: (r :: rs)
    else digitRuns cs

/-- Python `str.split(sep)` for a single-character separator: splits at
every occurrence, keeping empty chunks (the result is never empty). -/
def splitCharL (c : Char) : List Char → List (List Char)
  | [] => [[]]
  | x :: xs =>
    if x = c then [] :: splitCharL c xs
    else
      match splitCharL c xs with
      | [] => [[x]]
      | h :: t => (x :: h) :: t

/-- Python `str.split(sep, maxsplit)` for a single-character separator:
at most `n` splits, remainder kept whole. -/
def splitCharLMax (c : Char) : Nat → List Char → List (List Char)
  | 0, s => [s]
  | _ + 1, [] => [[]]
  | n + 1, x :: xs =>
    if x = c then [] :: splitCharLMax c n xs
    else
      match splitCharLMax c (n + 1) xs with
      | [] => [[x]]
      | h :: t => (x :: h) :: t

/-- String-level wrapper: Python `s.split(sep)` with `sep` a single
character. -/
def pySplitC (s : String) (sep : Char) : List String :=
  (splitCharL sep s.data).map String.mk

/-- String-level wrapper: Python `s.split(sep, maxsplit)` with `sep` a
single character. -/
def pySplitCMax (s : String) (sep : Char) (n : Nat) : List String :=
  (splitCharLMax sep n s.data).map String.mk

/-- String-level wrapper: Python `sub in s`. -/
def pyIn (sub s : String) : Bool :=
  containsSub sub.data s.data

/-- String-level wrapper: Python `s.startswith(p)` (= `p.isPrefixOf s`). -/
def pyStartswith (s p : String) : Bool :=
  p.data.isPrefixOf s.data

/-- String-level wrapper: Python `sep.join(parts)`. -/
def pyJoin (sep : String) (parts : List String) : String :=
  String.mk (joinSep sep.data (parts.map String.data))

/-- String-level wrapper: Python `s.lower()` (ASCII). -/
def pyLower (s : String) : String :=
  String.mk (s.data.map Char.toLower)

/-- The last element of a Python `split` result (`split` never returns an
empty list, so Python's `[-1]` is total; the default is never used). -/
def lastD (l : List String) : String :=
  l.getLastD ""

end Py

namespace Simeon

/-! ## `simeon/download/aws.py`: `decrypt_file` -/

/-- Outcome of the external `gpg` invocation launched by `decrypt_file`:
either the process finishes within the 60-second wait with an exit code and
captured stderr text, or `proc.wait(timeout=60)` times out. -/
inductive ProcOutcome where
  | completed (returncode : Int) (stderrText : String)
  | timedOut (stderrText : String)
deriving Repr, DecidableEq

/-- The exceptions `decrypt_file` can propagate: `DecryptionError` raised
by the function itself, and `subprocess.TimeoutExpired` raised (uncaught)
by `proc.wait(timeout=60)`. -/
inductive DecryptExc where
  | decryptionError (msg : String)
  | timeoutExpired
deriving Repr, DecidableEq

/-- `simeon.download.aws.decrypt_file`, with the behaviour of the external
process supplied as the `outcome` argument.  `proc.wait(timeout=60)` raises
`TimeoutExpired` when the process does not finish in time; the code does
not catch it.  On a non-zero exit code the function raises
`DecryptionError` carrying the stripped stderr text; on exit code 0 it
returns `True`. -/
def decrypt_file (fname : String) (outcome : ProcOutcome) : Except DecryptExc Bool :=
  match outcome with
  | .timedOut _ => .error .timeoutExpired
  | .completed rc err =>
    if rc ≠ 0 then
      .error (.decryptionError
        ("Failed to decrypt " ++ fname ++ ": " ++ String.mk (Py.stripWs err.data)))
    else
      .ok true

/-! ## `simeon/report/utilities.py`: schema enforcement and pruning

Records are the JSON-style dictionaries the report generators build:
finite key-value lists (Python dicts; keys unique, insertion-ordered).
A schema is a list of field descriptors (`name`, `field_type`, nested
`fields` for `RECORD`-typed fields; a missing `fields` key is modelled as
the empty list, which makes the recursion a no-op exactly as in Python). -/

/-- A JSON value as handled by the report generators. -/
inductive JVal where
  | str (s : String)
  | num (n : Int)
  | jbool (b : Bool)
  | null
  | arr (l : List JVal)
  | obj (o : List (String × JVal))
deriving Repr

/-- A BigQuery schema field descriptor. -/
structure Field where
  name : String
  field_type : String
  fields : List Field
deriving Repr

/-- A record: a Python dict of JSON values. -/
abbrev RecT := List (String × JVal)

/-- Python `key in record` for a dict. -/
def hasKeyR (k : String) (r : RecT) : Bool :=
  r.any (fun kv => kv.1 == k)

/-- Python `record.get(key)` for a dict (first binding; dicts have unique
keys). -/
def lookupR (k : String) : RecT → Option JVal
  | [] => none
  | (k', v) :: rest => if k' == k then some v else lookupR k rest

/-- Python `record[key] = v` on a dict whose `key` is present: replace the
(first) binding in place, preserving insertion order. -/
def setR (k : String) (v : JVal) : RecT → RecT
  | [] => []
  | (k', v') :: rest => if k' == k then (k', v) :: rest else (k', v') :: setR k v rest

/-- The exceptions the schema enforcer can raise: `MissingSchemaException`
in strict mode, and a `TypeError`/`AttributeError` when a `RECORD`-typed
field's present value is not a sub-dict (the original recurses into the
non-dict value and fails on the first sub-field access as soon as the
sub-field list is non-empty; that failure is modelled uniformly as
`typeError`). -/
inductive SchemaExc where
  | missingSchema (field : String)
  | typeError
deriving Repr, DecidableEq

/-- `check_record_schema(record, schema, coerce)`, functionally: the
returned record is the mutated input.  For each schema field in order:
a non-`RECORD` field absent from the record is set to `""` under
`coerce`, and raises `MissingSchemaException` otherwise; a `RECORD`
field recurses into `record.get(name, {})` — the recursion result is
visible in the record only when the sub-record was already present
(the freshly created `{}` of an absent field is mutated and then
discarded, so nothing is attached to the record). -/
def check_record_schema (coerce : Bool) : List Field → RecT → Except SchemaExc RecT
  | [], r => .ok r
  | f :: rest, r =>
    if f.field_type ≠ "RECORD" then
      if hasKeyR f.name r then
        check_record_schema coerce rest r
      else if coerce then
        check_record_schema coerce rest (r ++ [(f.name, JVal.str "")])
      else
        .error (.missingSchema f.name)
    else
      match lookupR f.name r with
      | some (JVal.obj sub) =>
        match check_record_schema coerce f.fields sub with
        | .error e => .error e
        | .ok sub' => check_record_schema coerce rest (setR f.name (JVal.obj sub') r)
      | some _ =>
        if f.fields.isEmpty then check_record_schema coerce rest r
        else .error .typeError
      | none =>
        match check_record_schema coerce f.fields [] with
        | .error e => .error e
        | .ok _ => check_record_schema coerce rest r
termination_by s _ => sizeOf s
decreasing_by
  all_goals obtain ⟨nm, ft, fs⟩ := f
  all_goals simp_wf
  all_goals omega

/-- The sub-field list `drop_extra_keys` recurses with for key `k`:
`next((f for f in schema if f.get('name') == k), None)`, with a missing
field or a missing `fields` key yielding an empty schema (on which the
recursion is a no-op thanks to the `if not schema: return` guard). -/
def subfieldsFor (schema : List Field) (k : String) : List Field :=
  match schema.find? (fun f => f.name == k) with
  | some f => f.fields
  | none => []

/-- `drop_extra_keys(record, schema)`: drop keys not named in the schema;
recurse into dict-valued entries with the matching field's sub-fields; an
empty (or `None`) schema is a no-op. -/
def drop_extra_keys (schema : List Field) (r : RecT) : RecT :=
  if schema.isEmpty then r
  else
    match r with
    | [] => []
    | (k, v) :: rest =>
      if (schema.map Field.name).contains k then
        match v with
        | JVal.obj sub =>
          (k, JVal.obj (drop_extra_keys (subfieldsFor schema k) sub)) :: drop_extra_keys schema rest
        | _ => (k, v) :: drop_extra_keys schema rest
      else
        drop_extra_keys schema rest
termination_by sizeOf r
decreasing_by
  all_goals simp_wf
  all_goals omega

/-! ## `simeon/report/utilities.py`: block-id parsing -/

/-- `course_from_block`: extract a course ID from a block ID. -/
def course_from_block (block : String) : String :=
  if Py.pyStartswith block "i4x://" then
    String.mk (Py.replaceSub 'c' "ourse/".data [] (Py.lastD ((Py.splitSep '/' ['/'] block.data).map String.mk)).data)
  else
    Py.pyJoin "/" ((Py.pySplitCMax (Py.lastD (Py.pySplitC block ':')) '+' 3).take 3)

/-- `module_from_block`: extract a module ID from a block ID.  Note the
legacy branch uses Python `str.lstrip`, which removes leading characters
drawn from the set `{i, 4, x, :, /}`, not the literal prefix. -/
def module_from_block (block : String) : String :=
  if Py.pyStartswith block "i4x://" then
    String.mk (Py.lstripChars ['i', '4', 'x', ':', '/'] block.data)
  else
    Py.pyJoin "/"
      ((Py.pySplitC (Py.lastD (Py.pySplitC block ':')) '+').map
        (fun s => Py.lastD (Py.pySplitC s '@')))

/-! ## `simeon/report/utilities.py`: course-axis construction

A course-structure document is a JSON mapping from block id to a node
object with `category`, `metadata` and `children` keys (the data model of
the structure dump; metadata values are the strings of the dump, and
Python string truthiness is `≠ ""`).  The `end`/`start` entries looked up
on the root node object by `make_course_axis` are kept as optional fields.
A block id absent from the mapping is read as `{}` through
`data.get(start, {})` and is modelled by `defaultNode`. -/

/-- One node of the course-structure mapping. -/
structure CSNode where
  category : String
  metadata : List (String × String)
  children : List String
  endv : Option String
  startv : Option String
deriving Repr, DecidableEq

/-- `data.get(key, {})` for a missing key: a node with no entries. -/
def defaultNode : CSNode := ⟨"", [], [], none, none⟩

/-- The course-structure document: block id → node (a Python dict). -/
abbrev CSMap := List (String × CSNode)

/-- Dict lookup in the structure document. -/
def nodeGet (data : CSMap) (k : String) : Option CSNode :=
  match data.find? (fun kv => kv.1 == k) with
  | some kv => some kv.2
  | none => none

/-- `data.get(k, {})`. -/
def nodeGetD (data : CSMap) (k : String) : CSNode :=
  (nodeGet data k).getD defaultNode

/-- `data.get(parent, {})` where `parent` may be `None`. -/
def parentGetD (data : CSMap) (parent : Option String) : CSNode :=
  match parent with
  | some p => nodeGetD data p
  | none => defaultNode

/-- `metadata.get(k, dflt)`. -/
def mgetD (m : List (String × String)) (k dflt : String) : String :=
  match m.find? (fun kv => kv.1 == k) with
  | some kv => kv.2
  | none => dflt

/-- `k in metadata`. -/
def mHas (m : List (String × String)) (k : String) : Bool :=
  m.any (fun kv => kv.1 == k)

/-- `get_youtube_id`: the first metadata entry whose key contains
`"youtube_id"` and whose value is truthy yields the digit runs of the key
joined with the value by `":"`. -/
def get_youtube_id (record : CSNode) : Option String :=
  go record.metadata
where
  go : List (String × String) → Option String
    | [] => none
    | (k, v) :: rest =>
      if Py.pyIn "youtube_id" k && v ≠ "" then
        some (Py.pyJoin ":" ((Py.digitRuns k.data).map String.mk ++ [v]))
      else go rest

/-- `get_axis_itype`: for `"problem"` categories, the lower-cased
display name with spaces removed. -/
def get_axis_itype (record : CSNode) : Option String :=
  if ¬ Py.pyIn "problem" record.category then none
  else some ((Py.pyLower (mgetD record.metadata "display_name" "")).replace " " "")

/-- `get_has_solution`: a `showanswer` metadata value is present and is
not `"never"`. -/
def get_has_solution (record : CSNode) : Bool :=
  if ¬ mHas record.metadata "showanswer" then false
  else mgetD record.metadata "showanswer" "" ≠ "never"

/-- `get_problem_nitems`: child count + 1 for `"problem"` categories. -/
def get_problem_nitems (record : CSNode) : Option Nat :=
  if Py.pyIn "problem" record.category then some (record.children.length + 1)
  else none

/-- The `data` sub-object of an axis item. -/
structure AxisData where
  ytid : Option String
  weight : Option String
  group_id_to_child : Option String
  user_partition_id : Option String
  itype : Option String
  num_items : Option Nat
  has_solution : Bool
  has_image : Bool
deriving Repr, DecidableEq

/-- One item built by `process_course_structure` (before the second pass
of `make_course_axis`). -/
structure AxisItem where
  parent : Option String
  split_url_name : Option String
  category : String
  url_name : String
  name : String
  gformat : String
  due : String
  startv : String
  graded : Bool
  is_split : Bool
  module_id : String
  data : AxisData
deriving Repr, DecidableEq

/-- The item `process_course_structure` constructs for block `start` with
parent block `parent` (the loop body before the recursive calls). -/
def axis_item (data : CSMap) (start : String) (parent : Option String) : AxisItem :=
  let record := nodeGetD data start
  let sep : Char := if Py.pyStartswith start "i4x:" then '/' else '@'
  let pnode := parentGetD data parent
  let category := record.category
  let url_name := Py.lastD (Py.pySplitC start sep)
  let is_split := Py.pyIn "split_test" category || Py.pyIn "split_test" pnode.category
  let parentLocal : Option String :=
    match parent with
    | some p => some (Py.lastD (Py.pySplitC p sep))
    | none => none
  { parent := parentLocal
    split_url_name :=
      if is_split then
        if Py.pyIn "split_test" start then some url_name else parentLocal
      else none
    category := category
    url_name := url_name
    name := mgetD record.metadata "display_name" ""
    gformat := mgetD record.metadata "format" (mgetD pnode.metadata "format" "")
    due := mgetD record.metadata "due" (mgetD pnode.metadata "due" "")
    startv := mgetD record.metadata "start" (mgetD pnode.metadata "start" "")
    graded := mgetD record.metadata "graded" (mgetD pnode.metadata "graded" "") ≠ ""
    is_split := is_split
    module_id := module_from_block start
    data :=
      { ytid := get_youtube_id record
        weight :=
          match record.metadata.find? (fun kv => kv.1 == "weight") with
          | some kv => some kv.2
          | none => none
        group_id_to_child := none
        user_partition_id := none
        itype := get_axis_itype record
        num_items := get_problem_nitems record
        has_solution := get_has_solution record
        has_image := false } }

/-- `process_course_structure(data, start, parent)`: emit the item for
`start`, then recurse into each child in order (pre-order).  The original
recurses without bound (and does not terminate on cyclic mappings); the
embedding carries explicit `fuel`. -/
def process_course_structure (data : CSMap) : Nat → String → Option String → List AxisItem
  | 0, _, _ => []
  | fuel + 1, start, parent =>
    axis_item data start parent ::
      (((nodeGetD data start).children.map
        (fun child => process_course_structure data fuel child (some start))).flatten)

/-- The block ids visited by `process_course_structure`, in emission
order (same recursion, same fuel). -/
def visitList (data : CSMap) : Nat → String → List String
  | 0, _ => []
  | fuel + 1, start =>
    start :: (((nodeGetD data start).children.map (fun child => visitList data fuel child)).flatten)

/-- The set of block ids reachable from `start` through `children` links
within `fuel` steps (root included). -/
def reachSet (data : CSMap) : Nat → String → Finset String
  | 0, _ => ∅
  | fuel + 1, start =>
    insert start
      ((nodeGetD data start).children.foldr (fun child acc => reachSet data fuel child ∪ acc) ∅)

/-- A fully assembled course-axis record (after the second pass of
`make_course_axis`). -/
structure AxisRecord where
  parent : Option String
  split_url_name : Option String
  category : String
  url_name : String
  name : String
  gformat : String
  due : Option String
  startv : Option String
  graded : Bool
  is_split : Bool
  module_id : String
  data : AxisData
  course_id : String
  chapter_mid : Option String
  index : Nat
deriving Repr, DecidableEq

/-- The second pass of `make_course_axis` over one item: `course_id`,
running `chapter_mid`, 1-based `index`, and the due/start backfill from
the root node's own `end`/`start` entries for graded formats. -/
def finalize_item (course_id : String) (root_val : CSNode) (item : AxisItem)
    (chapter_mid : Option String) (index : Nat) : AxisRecord :=
  { parent := item.parent
    split_url_name := item.split_url_name
    category := item.category
    url_name := item.url_name
    name := item.name
    gformat := item.gformat
    due := if item.gformat ≠ "" ∧ item.due = "" then root_val.endv else some item.due
    startv := if item.gformat ≠ "" ∧ item.startv = "" then root_val.startv else some item.startv
    graded := item.graded
    is_split := item.is_split
    module_id := item.module_id
    data := item.data
    course_id := course_id
    chapter_mid := chapter_mid
    index := index }

/-- The `for index, record in enumerate(data, 1)` loop of
`make_course_axis`: the running `chapter_mid` is updated (before the
assignment) whenever a `"chapter"`-category item is seen. -/
def axis_second_pass (course_id : String) (root_val : CSNode) :
    List AxisItem → Option String → Nat → List AxisRecord
  | [], _, _ => []
  | item :: rest, chapter_mid, index =>
    let cm := if item.category == "chapter" then some item.module_id else chapter_mid
    finalize_item course_id root_val item cm index ::
      axis_second_pass course_id root_val rest cm (index + 1)

/-- `make_course_axis(dirname, outname)`, as a pure function of the parsed
course-structure document (plus traversal fuel): the output path and the
record list written to it.  The root is the first block whose `category`
is `"course"`; a missing (or falsy) root raises `BadSQLFileException`.
Note the local rebinding of `outname` to the fixed
`dirname/course_axis.json.gz` path, which discards the parameter. -/
def make_course_axis (dirname outname : String) (structure_ : CSMap) (fuel : Nat) :
    Except String (String × List AxisRecord) :=
  match structure_.find? (fun kv => kv.2.category == "course") with
  | none => .error "BadSQLFileException"
  | some (root_block, root_val) =>
    if root_block = "" then .error "BadSQLFileException"
    else
      let course_id := course_from_block root_block
      let data := process_course_structure structure_ fuel root_block none
      let outname := dirname ++ "/course_axis.json.gz"
      .ok (outname, axis_second_pass course_id root_val data none 1)

/-! ## `simeon/report/utilities.py`: `make_user_info_combo`

The CSV layer (file handles, header prefixing) is taken as input: each
source contributes its parsed rows, keyed by the already-prefixed column
names exactly as `csv.DictReader` yields them after the header loop.  The
two repository functions that live outside `src/`
(`simeon.download.utilities.get_sql_course_id` and Python's
`str(float(...))` formatting) enter as the parameters `canon` and
`pfloat`; no property proved below depends on their values. -/

/-- A parsed tab-delimited row: column name → string value. -/
abbrev RowS := List (String × String)

/-- A user record under construction: output column → value, where the
value is a Python string-or-`None` (`row.get` of a missing column). -/
abbrev URec := List (String × Option String)

/-- The users dict: user id (a string or Python `None`) → record. -/
abbrev Users := List (Option String × URec)

/-- `row.get(k)`. -/
def lookupS (k : String) : RowS → Option String
  | [] => none
  | (k', v) :: rest => if k' == k then some v else lookupS k rest

/-- `rec[k] = v` on a dict: replace the binding in place or append. -/
def dsetRec (k : String) (v : Option String) : URec → URec
  | [] => [(k, v)]
  | (k', v') :: rest => if k' == k then (k, v) :: rest else (k', v') :: dsetRec k v rest

/-- `users[k] = rec` on a dict: replace the binding in place or append. -/
def dsetU (k : Option String) (rec : URec) : Users → Users
  | [] => [(k, rec)]
  | (k', r') :: rest => if k' == k then (k, rec) :: rest else (k', r') :: dsetU k rec rest

/-- `users.get(k)`. -/
def lookupU (k : Option String) : Users → Option URec
  | [] => none
  | (k', r) :: rest => if k' == k then some r else lookupU k rest

/-- `rec.get(k)` on a user record. -/
def lookupRec (k : String) : URec → Option (Option String)
  | [] => none
  | (k', v) :: rest => if k' == k then some v else lookupRec k rest

/-- The `auth_user` output columns (`USER_INFO_COLS`, primary source). -/
def user_cols : List String :=
  ["user_id", "username", "email", "is_staff", "last_login", "date_joined"]

/-- The `auth_userprofile` output columns. -/
def profile_cols : List String :=
  ["profile_name", "profile_language", "profile_location", "profile_meta",
   "profile_courseware", "profile_gender", "profile_mailing_address",
   "profile_year_of_birth", "profile_level_of_education", "profile_goals",
   "profile_allow_certificate", "profile_country", "profile_city"]

/-- The `student_courseenrollment` output columns. -/
def enrollment_cols : List String :=
  ["enrollment_course_id", "enrollment_created", "enrollment_is_active",
   "enrollment_mode"]

/-- The `certificates_generatedcertificate` output columns. -/
def certificate_cols : List String :=
  ["certificate_id", "certificate_user_id", "certificate_download_url",
   "certificate_grade", "certificate_course_id", "certificate_key",
   "certificate_distinction", "certificate_status", "certificate_verify_uuid",
   "certificate_download_uuid", "certificate_name", "certificate_created_date",
   "certificate_modified_date", "certificate_error_reason", "certificate_mode"]

/-- The `user_id_map` output columns. -/
def id_map_cols : List String := ["id_map_hash_id"]

/-- `ADDED_COLS`. -/
def added_cols : List String :=
  ["edxinstructordash_Grade", "edxinstructordash_Grade_timestamp", "y1_anomalous"]

/-- The emission column order: all declared columns plus `ADDED_COLS`. -/
def outcols : List String :=
  user_cols ++ profile_cols ++ enrollment_cols ++ certificate_cols ++
    id_map_cols ++ added_cols

/-- Seed one user record per primary (`auth_user`) row, keyed by the `id`
column: `row['user_id'] = row.get('id'); users[uid] = {k: row.get(k)}`. -/
def seed_primary : List RowS → Users → Users
  | [], users => users
  | row :: rest, users =>
    let uid := lookupS "id" row
    let rec_ := user_cols.map (fun k => (k, if k == "user_id" then uid else lookupS k row))
    seed_primary rest (dsetU uid rec_ users)

/-- The join value of a secondary row: `row[<pfx>_user_id]` if that column
is present, else `row.get(<pfx>_id)`. -/
def join_value (pfx : String) (row : RowS) : Option String :=
  match lookupS (pfx ++ "_user_id") row with
  | some v => some v
  | none => lookupS (pfx ++ "_id") row

/-- Merge one secondary row: fetch-or-create the user record for the join
value, set its `user_id`, and copy the declared prefixed columns. -/
def apply_secondary_row (pfx : String) (cols : List String) (row : RowS)
    (users : Users) : Users :=
  let user_id := join_value pfx row
  let target := (lookupU user_id users).getD []
  let target := dsetRec "user_id" user_id target
  let target := cols.foldl (fun t k => dsetRec k (lookupS k row) t) target
  dsetU user_id target users

/-- Merge a whole secondary source, row by row. -/
def apply_secondary (pfx : String) (cols : List String) : List RowS → Users → Users
  | [], users => users
  | row :: rest, users =>
    apply_secondary pfx cols rest (apply_secondary_row pfx cols row users)

/-- The per-column emission transform of `make_user_info_combo`:
`record.get(k) or ''`, the course-id canonicalizer for columns containing
"course_id", decimal reformatting for columns containing
"certificate_grade", then the literal `NULL`/`null` normalization. -/
def uic_field_val (canon : String → String) (pfloat : String → Option String)
    (k : String) (v0 : Option (Option String)) : String :=
  let val := match v0 with
    | some (some s) => s
    | _ => ""
  let val := if Py.pyIn "course_id" k then (if val ≠ "" then canon val else "") else val
  let val := if Py.pyIn "certificate_grade" k then
      (match pfloat val with
       | some s => s
       | none => "") else val
  if val = "NULL" ∨ val = "null" then "" else val

/-- The emitted row for one user record, over all output columns. -/
def build_outrow (canon : String → String) (pfloat : String → Option String)
    (rec_ : URec) : RecT :=
  outcols.map (fun k => (k, JVal.str (uic_field_val canon pfloat k (lookupRec k rec_))))

/-- Python truthiness of `outrow.get(k)` for the drop check (all emitted
values are strings). -/
def out_falsy (r : RecT) (k : String) : Bool :=
  match lookupR k r with
  | some (JVal.str s) => s == ""
  | some _ => false
  | none => true

/-- `drop_extra_keys(outcols, schema)` as written in the source: the
record argument is the *column list*, not the row.  With a non-empty
schema it raises `TypeError` at the first column not named in the schema
(`del` on a list with a string index); when every column is named — or
the schema is empty — it does nothing. -/
def drop_extra_keys_on_cols (schema : List Field) : Except SchemaExc Unit :=
  if schema.isEmpty then .ok ()
  else if outcols.all (fun k => (schema.map Field.name).contains k) then .ok ()
  else .error .typeError

/-- The emission loop of `make_user_info_combo`: build each output row,
skip rows with neither a `user_id` nor a `certificate_user_id`, enforce
the schema in coerce mode, and run the (misdirected) pruning call. -/
def emit_users (canon : String → String) (pfloat : String → Option String)
    (schema : List Field) : Users → Except SchemaExc (List RecT)
  | [] => .ok []
  | (_, rec_) :: rest =>
    let outrow := build_outrow canon pfloat rec_
    if out_falsy outrow "user_id" && out_falsy outrow "certificate_user_id" then
      emit_users canon pfloat schema rest
    else
      match check_record_schema true schema outrow with
      | .error e => .error e
      | .ok outrow' =>
        match drop_extra_keys_on_cols schema with
        | .error e => .error e
        | .ok _ =>
          match emit_users canon pfloat schema rest with
          | .error e => .error e
          | .ok out => .ok (outrow' :: out)

/-- `make_user_info_combo`, as a pure function of the parsed rows of the
five source dumps (secondary rows keyed by prefixed column names), the
report schema, and the two external helpers.  Returns the emitted rows in
order. -/
def make_user_info_combo (canon : String → String) (pfloat : String → Option String)
    (schema : List Field) (authRows profileRows enrollRows certRows idmapRows : List RowS) :
    Except SchemaExc (List RecT) :=
  let users := seed_primary authRows []
  let users := apply_secondary "profile" profile_cols profileRows users
  let users := apply_secondary "enrollment" enrollment_cols enrollRows users
  let users := apply_secondary "certificate" certificate_cols certRows users
  let users := apply_secondary "id_map" id_map_cols idmapRows users
  emit_users canon pfloat schema users

/-! ## `simeon/report/utilities.py`: per-field transforms of
`make_grades_persistent` and `make_student_module` -/

/-- The per-field transform of `make_grades_persistent`: canonicalize
columns containing "course_id", then replace a (current) value equal to
the literal `'NULL'` — and only that exact literal — by `None`. -/
def grades_persistent_val (canon : String → String) (k v : String) : Option String :=
  let v1 := if Py.pyIn "course_id" k then canon v else v
  if v1 = "NULL" then none else some v1

/-- The record transform of `make_grades_persistent` over a whole row. -/
def grades_persistent_record (canon : String → String) (row : RowS) :
    List (String × Option String) :=
  row.map (fun kv => (kv.1, grades_persistent_val canon kv.1 kv.2))

/-- The per-field transform of `make_student_module`: canonicalize the
`course_id` column, re-derive the `module_id` column, then replace any
field whose *original* value lower-cases to `"null"` by `None`. -/
def student_module_val (canon : String → String) (k v : String) : Option String :=
  let v1 := if k == "course_id" then canon v
    else if k == "module_id" then module_from_block v
    else v
  if Py.pyLower v = "null" then none else some v1

/-- The record transform of `make_student_module` over a whole row. -/
def student_module_record (canon : String → String) (row : RowS) :
    List (String × Option String) :=
  row.map (fun kv => (kv.1, student_module_val canon kv.1 kv.2))

/-- Modelled from the spec: the course-id canonicalizer
`simeon.download.utilities.get_sql_course_id`, whose definition is not
under `src/`; the spec (§4.3) names it but does not specify its mapping,
and no property proved in this file depends on its values, so it stands
in as the identity wherever a concrete instantiation is required. -/
def get_sql_course_id (s : String) : String := s

/-- Modelled from the spec: Python's `str(float(v))` reformatting used for
"certificate_grade" columns ("reformatted as a decimal string or emptied
on parse failure", §4.3).  Only its failure on non-numeric literals
matters to the claims; the stand-in rejects every input. -/
def py_float_str (_ : String) : Option String := none

end Simeon

namespace Py

theorem splitCharL_ne_nil (c : Char) (cs : List Char) : splitCharL c cs ≠ [] := by
  cases cs with
  | nil => simp [splitCharL]
  | cons x xs =>
    simp only [splitCharL]
    by_cases hx : x = c
    · simp [hx]
    · simp only [hx, if_neg, not_false_iff]
      cases splitCharL c xs <;> simp

theorem splitCharL_of_not_mem (c : Char) (cs : List Char) (h : c ∉ cs) :
    splitCharL c cs = [cs] := by
  induction cs with
  | nil => rfl
  | cons x xs ih =>
    simp only [List.mem_cons, not_or] at h
    simp only [splitCharL]
    rw [if_neg (fun hx => h.1 hx.symm), ih h.2]

theorem splitCharL_length_of_mem (c : Char) (cs : List Char) (h : c ∈ cs) :
    2 ≤ (splitCharL c cs).length := by
  induction cs with
  | nil => simp at h
  | cons x xs ih =>
    simp only [splitCharL]
    by_cases hx : x = c
    · simp only [hx, if_pos, List.length_cons]
      have := List.length_pos.mpr (splitCharL_ne_nil c xs)
      omega
    · have hm : c ∈ xs := by
        rcases List.mem_cons.mp h with h1 | h2
        · exact absurd h1.symm hx
        · exact h2
      have := ih hm
      simp only [hx, if_neg, not_false_iff]
      rcases he : splitCharL c xs with - | ⟨hd, tl⟩
      · exact absurd he (splitCharL_ne_nil c xs)
      · rw [he] at this
        simp only [List.length_cons] at this ⊢
        omega

/-- The characters after the last occurrence of `c` in the list (the whole
list when `c` does not occur). -/
def afterLastCharL (c : Char) : List Char → List Char
  | [] => []
  | x :: xs => if c ∈ xs then afterLastCharL c xs else if x = c then xs else x :: xs

theorem afterLastCharL_of_not_mem (c : Char) (cs : List Char) (h : c ∉ cs) :
    afterLastCharL c cs = cs := by
  induction cs with
  | nil => rfl
  | cons x xs ih =>
    simp only [List.mem_cons, not_or] at h
    simp only [afterLastCharL]
    rw [if_neg h.2, if_neg (fun hx => h.1 hx.symm)]

theorem getLast?_splitCharL (c : Char) (cs : List Char) :
    (splitCharL c cs).getLast? = some (afterLastCharL c cs) := by
  induction cs with
  | nil => rfl
  | cons x xs ih =>
    simp only [splitCharL, afterLastCharL]
    by_cases hx : x = c
    · rw [if_pos hx, if_pos hx]
      rcases he : splitCharL c xs with - | ⟨hd, tl⟩
      · exact absurd he (splitCharL_ne_nil c xs)
      · rw [he] at ih
        rw [List.getLast?_cons_cons, ih]
        by_cases hm : c ∈ xs
        · rw [if_pos hm]
        · rw [if_neg hm, afterLastCharL_of_not_mem c xs hm]
    · rw [if_neg hx, if_neg hx]
      by_cases hm : c ∈ xs
      · rw [if_pos hm]
        rcases he : splitCharL c xs with - | ⟨hd, tl⟩
        · exact absurd he (splitCharL_ne_nil c xs)
        · have hlen := splitCharL_length_of_mem c xs hm
          rw [he] at ih hlen
          cases tl with
          | nil => simp at hlen
          | cons t ts =>
            rw [List.getLast?_cons_cons]
            rw [List.getLast?_cons_cons] at ih
            exact ih
      · rw [if_neg hm, splitCharL_of_not_mem c xs hm]
        rfl

/-- String-level: the part of `s` after the last occurrence of `c`. -/
def afterLastChar (c : Char) (s : String) : String :=
  String.mk (afterLastCharL c s.data)

theorem lastD_pySplitC (s : String) (c : Char) :
    lastD (pySplitC s c) = afterLastChar c s := by
  unfold lastD pySplitC afterLastChar
  rw [List.getLastD_eq_getLast?, List.getLast?_map, getLast?_splitCharL]
  rfl

end Py

namespace Simeon

/-- The modern-branch behaviour of `module_from_block` in the words of the
amended claim C9: take the part of the id after the last colon, split it
at `+`, keep of each segment only the part after its last `@`, and join
the segments with `/`. -/
def module_suffix_spec (block : String) : String :=
  Py.pyJoin "/"
    ((Py.pySplitC (Py.afterLastChar ':' block) '+').map
      (fun seg => Py.afterLastChar '@' seg))

end Simeon

open Simeon

/-! ## Claim C4: pruning never removes declared keys -/

/-- A key path is declared by a schema: each component names a field at
its level, descending through `fields`. -/
def declared_path (schema : List Field) : List String → Bool
  | [] => true
  | k :: p =>
    match schema.find? (fun f => f.name == k) with
    | some f => declared_path f.fields p
    | none => false

/-- A key path is present in a record: each component is a key at its
level, descending through sub-records (a non-record value ends the
descent). -/
def present_path (r : RecT) : List String → Bool
  | [] => true
  | k :: p =>
    match lookupR k r with
    | some (JVal.obj sub) => present_path sub p
    | some _ => p.isEmpty
    | none => false

theorem contains_name_of_find? (schema : List Field) (k : String) (f : Field)
    (h : schema.find? (fun f => f.name == k) = some f) :
    (schema.map Field.name).contains k = true := by
  have hm : f ∈ schema := List.mem_of_find?_eq_some h
  have hk0 := List.find?_some h
  simp only [beq_iff_eq] at hk0
  have : k ∈ schema.map Field.name :=
    List.mem_map.mpr ⟨f, hm, hk0⟩
  simpa using this

/-- Unfolding `drop_extra_keys` on an empty record (non-empty schema). -/
theorem drop_extra_keys_nil (schema : List Field) (hs : schema.isEmpty = false) :
    drop_extra_keys schema [] = [] := by
  unfold drop_extra_keys
  rw [hs]
  rfl

/-- Unfolding `drop_extra_keys` on a record entry (non-empty schema). -/
theorem drop_extra_keys_cons (schema : List Field) (hs : schema.isEmpty = false)
    (k : String) (v : JVal) (rest : RecT) :
    drop_extra_keys schema ((k, v) :: rest) =
      if (schema.map Field.name).contains k then
        match v with
        | JVal.obj sub =>
          (k, JVal.obj (drop_extra_keys (subfieldsFor schema k) sub)) ::
            drop_extra_keys schema rest
        | _ => (k, v) :: drop_extra_keys schema rest
      else drop_extra_keys schema rest := by
  conv_lhs => unfold drop_extra_keys
  rw [hs]
  rfl

/-- The value found at a declared key after pruning: the original value,
with sub-records pruned against the matching field's sub-fields. -/
theorem lookupR_drop_extra_keys (schema : List Field) (r : RecT) (k : String)
    (hs : schema.isEmpty = false) (hk : (schema.map Field.name).contains k = true) :
    lookupR k (drop_extra_keys schema r) =
      (lookupR k r).map (fun v =>
        match v with
        | JVal.obj sub => JVal.obj (drop_extra_keys (subfieldsFor schema k) sub)
        | v => v) := by
  induction r with
  | nil =>
    rw [drop_extra_keys_nil schema hs]
    rfl
  | cons kv rest ih =>
    obtain ⟨k', v⟩ := kv
    rw [drop_extra_keys_cons schema hs]
    by_cases hkk : k' == k
    · have hk' : (schema.map Field.name).contains k' = true := by
        rw [eq_of_beq hkk]; exact hk
      rw [if_pos hk']
      cases v <;> simp [lookupR, eq_of_beq hkk]
    · by_cases hc : (schema.map Field.name).contains k'
      · rw [if_pos hc]
        cases v <;> simp [lookupR, hkk, ih]
      · rw [if_neg hc, ih]
        simp [lookupR, hkk]

/-- C4: `drop_extra_keys` never removes a key declared in the schema, at
any nesting depth (every declared-and-present key path is still present
after pruning), and with an empty (or absent) schema it removes nothing. -/
theorem c4_drop_extra_keys_preserves_declared :
    (∀ schema r path, declared_path schema path = true → present_path r path = true →
      present_path (drop_extra_keys schema r) path = true) ∧
    (∀ r, drop_extra_keys [] r = r) := by
  constructor
  · intro schema r path
    induction path generalizing schema r with
    | nil => intro _ _; rfl
    | cons k p ih =>
      intro hd hp
      simp only [declared_path] at hd
      rcases hf : schema.find? (fun f => f.name == k) with - | f
      · rw [hf] at hd
        cases hd
      · rw [hf] at hd
        have hs : schema.isEmpty = false := by
          cases schema with
          | nil => simp [List.find?] at hf
          | cons a l => rfl
        have hk := contains_name_of_find? schema k f hf
        simp only [present_path] at hp ⊢
        rw [lookupR_drop_extra_keys schema r k hs hk]
        rcases hv : lookupR k r with - | v
        · rw [hv] at hp
          cases hp
        · rw [hv] at hp
          cases v with
          | obj sub =>
            simp only [Option.map_some']
            have hsub : subfieldsFor schema k = f.fields := by
              unfold subfieldsFor
              rw [hf]
            rw [hsub]
            exact ih f.fields sub hd hp
          | str s => simpa using hp
          | num n => simpa using hp
          | jbool b => simpa using hp
          | null => simpa using hp
          | arr l => simpa using hp
  · intro r
    unfold drop_extra_keys
    rfl

/-- The schema used by the C4 witness. -/
def c4wSchema : List Field :=
  [⟨"a", "RECORD", [⟨"b", "STRING", []⟩]⟩, ⟨"keep", "STRING", []⟩]

/-- The record used by the C4 witness. -/
def c4wRec : RecT :=
  [("a", JVal.obj [("b", JVal.str "x"), ("junk", JVal.null)]), ("extra", JVal.num 1)]

/-- C4 (witness): the declared nested path `a.b` is still present after
pruning `c4wRec` against `c4wSchema`, and pruning with an empty schema is
the identity on a concrete record. -/
theorem c4_witness :
    present_path (drop_extra_keys c4wSchema c4wRec) ["a", "b"] = true ∧
    drop_extra_keys [] [("z", JVal.null)] = [("z", JVal.null)] :=
  ⟨c4_drop_extra_keys_preserves_declared.1 c4wSchema c4wRec ["a", "b"] (by decide) (by decide),
   c4_drop_extra_keys_preserves_declared.2 [("z", JVal.null)]⟩

/-! ## Claims C2 and C5: properties of `check_record_schema`

Dictionary-operation lemmas, unfolding lemmas for the well-founded
definition, and the invariants of coerce-mode enforcement. -/

theorem hasKeyR_cons (k k' : String) (v : JVal) (r : RecT) :
    hasKeyR k ((k', v) :: r) = (k' == k || hasKeyR k r) := by
  simp [hasKeyR, List.any_cons]

theorem hasKeyR_append (k : String) (r l : RecT) :
    hasKeyR k (r ++ l) = (hasKeyR k r || hasKeyR k l) := by
  simp [hasKeyR, List.any_append]

theorem lookupR_isSome_eq_hasKeyR (k : String) (r : RecT) :
    (lookupR k r).isSome = hasKeyR k r := by
  induction r with
  | nil => rfl
  | cons kv rest ih =>
    obtain ⟨k', v⟩ := kv
    rw [hasKeyR_cons]
    by_cases h : k' == k <;> simp [lookupR, h, ih]

theorem lookupR_eq_none_of_not_hasKeyR (k : String) (r : RecT)
    (h : hasKeyR k r = false) : lookupR k r = none := by
  have := lookupR_isSome_eq_hasKeyR k r
  rw [h] at this
  exact Option.not_isSome_iff_eq_none.mp (by simp [this])

theorem hasKeyR_of_lookupR (k : String) (r : RecT) (v : JVal)
    (h : lookupR k r = some v) : hasKeyR k r = true := by
  rw [← lookupR_isSome_eq_hasKeyR, h]
  rfl

theorem lookupR_append_left (k : String) (r l : RecT) (hk : hasKeyR k r = true) :
    lookupR k (r ++ l) = lookupR k r := by
  induction r with
  | nil => simp [hasKeyR] at hk
  | cons kv rest ih =>
    obtain ⟨k', v⟩ := kv
    rw [hasKeyR_cons] at hk
    by_cases h : k' == k
    · simp [lookupR, h]
    · simp only [h, Bool.false_or] at hk
      simp [lookupR, h, ih hk]

theorem lookupR_append_right (k : String) (r l : RecT) (hk : hasKeyR k r = false) :
    lookupR k (r ++ l) = lookupR k l := by
  induction r with
  | nil => rfl
  | cons kv rest ih =>
    obtain ⟨k', v⟩ := kv
    rw [hasKeyR_cons] at hk
    simp only [Bool.or_eq_false_iff] at hk
    simp [lookupR, hk.1, ih hk.2]

theorem hasKeyR_setR (k k' : String) (v : JVal) (r : RecT) :
    hasKeyR k (setR k' v r) = hasKeyR k r := by
  induction r with
  | nil => rfl
  | cons kv rest ih =>
    obtain ⟨k'', v'⟩ := kv
    by_cases h : k'' == k'
    · simp [setR, h, hasKeyR_cons, eq_of_beq h]
    · simp only [setR, h, Bool.false_eq_true, if_false, hasKeyR_cons, ih]

theorem lookupR_setR_self (k : String) (v : JVal) (r : RecT) (hk : hasKeyR k r = true) :
    lookupR k (setR k v r) = some v := by
  induction r with
  | nil => simp [hasKeyR] at hk
  | cons kv rest ih =>
    obtain ⟨k', v'⟩ := kv
    rw [hasKeyR_cons] at hk
    by_cases h : k' == k
    · simp [setR, lookupR, h, eq_of_beq h]
    · simp only [h, Bool.false_or] at hk
      simp [setR, lookupR, h, ih hk]

theorem lookupR_setR_ne (k k' : String) (v : JVal) (r : RecT) (h : (k' == k) = false) :
    lookupR k (setR k' v r) = lookupR k r := by
  induction r with
  | nil => rfl
  | cons kv rest ih =>
    obtain ⟨k'', v'⟩ := kv
    by_cases hk : k'' == k'
    · have : (k'' == k) = false := by
        rw [eq_of_beq hk]
        exact h
      simp [setR, lookupR, hk, this]
    · by_cases hkk : k'' == k <;> simp [setR, lookupR, hk, hkk, ih]

theorem setR_eq_self (k : String) (v : JVal) (r : RecT) (h : lookupR k r = some v) :
    setR k v r = r := by
  induction r with
  | nil => rfl
  | cons kv rest ih =>
    obtain ⟨k', v'⟩ := kv
    by_cases hk : k' == k
    · simp only [lookupR, hk, if_pos] at h
      cases h
      simp [setR, hk]
    · simp only [lookupR, hk, Bool.false_eq_true, if_false] at h
      simp [setR, hk, ih h]

/-- Unfolding `check_record_schema` on the empty schema. -/
theorem check_record_schema_nil (c : Bool) (r : RecT) :
    check_record_schema c [] r = Except.ok r := by
  unfold check_record_schema
  rfl

/-- Unfolding `check_record_schema` on one schema field. -/
theorem check_record_schema_cons (c : Bool) (f : Field) (rest : List Field) (r : RecT) :
    check_record_schema c (f :: rest) r =
      if f.field_type ≠ "RECORD" then
        if hasKeyR f.name r then
          check_record_schema c rest r
        else if c then
          check_record_schema c rest (r ++ [(f.name, JVal.str "")])
        else
          Except.error (.missingSchema f.name)
      else
        match lookupR f.name r with
        | some (JVal.obj sub) =>
          match check_record_schema c f.fields sub with
          | .error e => .error e
          | .ok sub' => check_record_schema c rest (setR f.name (JVal.obj sub') r)
        | some _ =>
          if f.fields.isEmpty then check_record_schema c rest r
          else .error .typeError
        | none =>
          match check_record_schema c f.fields [] with
          | .error e => .error e
          | .ok _ => check_record_schema c rest r := by
  conv_lhs => unfold check_record_schema

theorem lookupR_append_single_ne (k nm : String) (v : JVal) (r : RecT)
    (h : (nm == k) = false) : lookupR k (r ++ [(nm, v)]) = lookupR k r := by
  by_cases hk : hasKeyR k r
  · exact lookupR_append_left k r [(nm, v)] hk
  · rw [lookupR_append_right k r [(nm, v)] (by simpa using hk),
      lookupR_eq_none_of_not_hasKeyR k r (by simpa using hk)]
    simp [lookupR, h]

/-- Enforcement never removes a key: any key of the input record is a key
of the (successful) output record. -/
theorem check_preserves_hasKeyR : ∀ (s : List Field) (c : Bool) (r r' : RecT) (k : String),
    check_record_schema c s r = Except.ok r' → hasKeyR k r = true → hasKeyR k r' = true
  | [], c, r, r', k => by
    rw [check_record_schema_nil]
    intro h hk
    cases h
    exact hk
  | f :: rest, c, r, r', k => by
    rw [check_record_schema_cons]
    intro h hk
    by_cases hft : f.field_type ≠ "RECORD"
    · rw [if_pos hft] at h
      by_cases hhk : hasKeyR f.name r
      · rw [if_pos hhk] at h
        exact check_preserves_hasKeyR rest c r r' k h hk
      · rw [if_neg hhk] at h
        cases c with
        | false => cases h
        | true =>
          rw [if_pos rfl] at h
          refine check_preserves_hasKeyR rest true _ r' k h ?_
          rw [hasKeyR_append, hk]
          rfl
    · rw [if_neg hft] at h
      split at h
      · split at h
        · cases h
        · refine check_preserves_hasKeyR rest c _ r' k h ?_
          rw [hasKeyR_setR]
          exact hk
      · split at h
        · exact check_preserves_hasKeyR rest c r r' k h hk
        · cases h
      · split at h
        · cases h
        · exact check_preserves_hasKeyR rest c r r' k h hk
termination_by s => sizeOf s
decreasing_by
  all_goals simp_wf
  all_goals omega

/-- Enforcement does not touch keys not named at the top level of the
schema. -/
theorem check_frame : ∀ (s : List Field) (c : Bool) (r r' : RecT) (k : String),
    check_record_schema c s r = Except.ok r' →
    (s.map Field.name).contains k = false → lookupR k r' = lookupR k r
  | [], c, r, r', k => by
    rw [check_record_schema_nil]
    intro h _
    cases h
    rfl
  | f :: rest, c, r, r', k => by
    rw [check_record_schema_cons]
    intro h hns
    have hhead : (f.name == k) = false := by
      by_cases hh : f.name == k
      · exfalso
        have hmem : k ∈ (f :: rest).map Field.name := by
          simp [eq_of_beq hh]
        have hcon : ((f :: rest).map Field.name).contains k = true :=
          List.elem_eq_true_of_mem hmem
        rw [hcon] at hns
        cases hns
      · simpa using hh
    have hrest : (rest.map Field.name).contains k = false := by
      by_cases hh : (rest.map Field.name).contains k
      · exfalso
        have hmem : k ∈ (f :: rest).map Field.name := by
          simp only [List.map_cons, List.mem_cons]
          exact Or.inr (List.mem_of_elem_eq_true hh)
        have hcon : ((f :: rest).map Field.name).contains k = true :=
          List.elem_eq_true_of_mem hmem
        rw [hcon] at hns
        cases hns
      · simpa using hh
    by_cases hft : f.field_type ≠ "RECORD"
    · rw [if_pos hft] at h
      by_cases hhk : hasKeyR f.name r
      · rw [if_pos hhk] at h
        exact check_frame rest c r r' k h hrest
      · rw [if_neg hhk] at h
        cases c with
        | false => cases h
        | true =>
          rw [if_pos rfl] at h
          rw [check_frame rest true _ r' k h hrest]
          exact lookupR_append_single_ne k f.name (JVal.str "") r hhead
    · rw [if_neg hft] at h
      split at h
      · split at h
        · cases h
        · rename_i sub sub' hin
          rw [check_frame rest c _ r' k h hrest]
          exact lookupR_setR_ne k f.name (JVal.obj sub') r hhead
      · split at h
        · exact check_frame rest c r r' k h hrest
        · cases h
      · split at h
        · cases h
        · exact check_frame rest c r r' k h hrest
termination_by s => sizeOf s
decreasing_by
  all_goals simp_wf
  all_goals omega

/-- Enforcement never changes an existing non-record value: a key bound to
a non-`obj` value keeps that value through a successful run. -/
theorem check_preserves_value : ∀ (s : List Field) (c : Bool) (r r' : RecT) (k : String)
    (v : JVal), check_record_schema c s r = Except.ok r' → lookupR k r = some v →
    (∀ sub, v ≠ JVal.obj sub) → lookupR k r' = some v
  | [], c, r, r', k, v => by
    rw [check_record_schema_nil]
    intro h hv _
    cases h
    exact hv
  | f :: rest, c, r, r', k, v => by
    rw [check_record_schema_cons]
    intro h hv hno
    by_cases hft : f.field_type ≠ "RECORD"
    · rw [if_pos hft] at h
      by_cases hhk : hasKeyR f.name r
      · rw [if_pos hhk] at h
        exact check_preserves_value rest c r r' k v h hv hno
      · rw [if_neg hhk] at h
        cases c with
        | false => cases h
        | true =>
          rw [if_pos rfl] at h
          have hne : (f.name == k) = false := by
            by_cases hq : f.name == k
            · exfalso
              rw [← eq_of_beq hq] at hv
              rw [hasKeyR_of_lookupR f.name r v hv] at hhk
              exact hhk rfl
            · simpa using hq
          refine check_preserves_value rest true _ r' k v h ?_ hno
          rw [lookupR_append_single_ne k f.name (JVal.str "") r hne]
          exact hv
    · rw [if_neg hft] at h
      split at h
      · rename_i sub heq
        split at h
        · cases h
        · rename_i sub' hin
          have hne : (f.name == k) = false := by
            by_cases hq : f.name == k
            · exfalso
              rw [eq_of_beq hq, hv] at heq
              cases heq
              exact hno sub rfl
            · simpa using hq
          refine check_preserves_value rest c _ r' k v h ?_ hno
          rw [lookupR_setR_ne k f.name (JVal.obj sub') r hne]
          exact hv
      · split at h
        · exact check_preserves_value rest c r r' k v h hv hno
        · cases h
      · split at h
        · cases h
        · exact check_preserves_value rest c r r' k v h hv hno
termination_by s => sizeOf s
decreasing_by
  all_goals simp_wf
  all_goals omega

/-- Strict-mode enforcement never modifies the record: a successful strict
run returns the input unchanged. -/
theorem check_strict_id : ∀ (s : List Field) (r r' : RecT),
    check_record_schema false s r = Except.ok r' → r' = r
  | [], r, r' => by
    rw [check_record_schema_nil]
    intro h
    cases h
    rfl
  | f :: rest, r, r' => by
    rw [check_record_schema_cons]
    intro h
    by_cases hft : f.field_type ≠ "RECORD"
    · rw [if_pos hft] at h
      by_cases hhk : hasKeyR f.name r
      · rw [if_pos hhk] at h
        exact check_strict_id rest r r' h
      · rw [if_neg hhk] at h
        simp only [Bool.false_eq_true, if_false] at h
        cases h
    · rw [if_neg hft] at h
      split at h
      · rename_i sub heq
        split at h
        · cases h
        · rename_i sub' hin
          have hsub : sub' = sub := check_strict_id f.fields sub sub' hin
          rw [hsub, setR_eq_self f.name (JVal.obj sub) r heq] at h
          exact check_strict_id rest r r' h
      · split at h
        · exact check_strict_id rest r r' h
        · cases h
      · split at h
        · cases h
        · exact check_strict_id rest r r' h
termination_by s => sizeOf s
decreasing_by
  all_goals obtain ⟨nm, ft, fs⟩ := f
  all_goals simp_wf
  all_goals omega

/-- Well-formedness of a schema: field names are pairwise distinct at
every nesting level (true of the repository's schema documents). -/
def schema_wf : List Field → Bool
  | [] => true
  | f :: rest =>
    !((rest.map Field.name).contains f.name) && schema_wf f.fields && schema_wf rest
termination_by s => sizeOf s
decreasing_by
  all_goals obtain ⟨nm, ft, fs⟩ := f
  all_goals simp_wf
  all_goals omega

/-- A record satisfies a schema: every leaf field is present, recursively
through present sub-records; a leaf under an absent (or non-record-valued,
sub-field-free) `RECORD` field imposes nothing — mirroring what coerce-mode
enforcement actually establishes. -/
def satisfies_schema : List Field → RecT → Bool
  | [], _ => true
  | f :: rest, r =>
    (if f.field_type ≠ "RECORD" then hasKeyR f.name r
     else
       match lookupR f.name r with
       | some (JVal.obj sub) => satisfies_schema f.fields sub
       | some _ => f.fields.isEmpty
       | none => true) && satisfies_schema rest r
termination_by s _ => sizeOf s
decreasing_by
  all_goals obtain ⟨nm, ft, fs⟩ := f
  all_goals simp_wf
  all_goals omega

/-- A record is well nested for a schema: any present value at a
`RECORD`-typed field name is itself a sub-record (recursively), except
that a sub-field-free `RECORD` field tolerates anything. -/
def well_nested : List Field → RecT → Bool
  | [], _ => true
  | f :: rest, r =>
    (if f.field_type ≠ "RECORD" then true
     else
       match lookupR f.name r with
       | some (JVal.obj sub) => well_nested f.fields sub
       | some _ => f.fields.isEmpty
       | none => true) && well_nested rest r
termination_by s _ => sizeOf s
decreasing_by
  all_goals obtain ⟨nm, ft, fs⟩ := f
  all_goals simp_wf
  all_goals omega

/-- Some leaf field declared by the schema is absent from the record, the
leaves below an absent `RECORD` field being checked against an empty
sub-record — the claim's notion of a missing leaf. -/
def missing_leaf : List Field → RecT → Bool
  | [], _ => false
  | f :: rest, r =>
    (if f.field_type ≠ "RECORD" then !hasKeyR f.name r
     else
       match lookupR f.name r with
       | some (JVal.obj sub) => missing_leaf f.fields sub
       | some _ => false
       | none => missing_leaf f.fields []) || missing_leaf rest r
termination_by s _ => sizeOf s
decreasing_by
  all_goals obtain ⟨nm, ft, fs⟩ := f
  all_goals simp_wf
  all_goals omega

theorem schema_wf_cons (f : Field) (rest : List Field) :
    schema_wf (f :: rest) =
      (!((rest.map Field.name).contains f.name) && schema_wf f.fields && schema_wf rest) := by
  conv_lhs => unfold schema_wf

theorem satisfies_schema_nil (r : RecT) : satisfies_schema [] r = true := by
  unfold satisfies_schema
  rfl

theorem satisfies_schema_cons (f : Field) (rest : List Field) (r : RecT) :
    satisfies_schema (f :: rest) r =
      ((if f.field_type ≠ "RECORD" then hasKeyR f.name r
        else
          match lookupR f.name r with
          | some (JVal.obj sub) => satisfies_schema f.fields sub
          | some _ => f.fields.isEmpty
          | none => true) && satisfies_schema rest r) := by
  conv_lhs => unfold satisfies_schema

theorem well_nested_nil_schema (r : RecT) : well_nested [] r = true := by
  unfold well_nested
  rfl

theorem well_nested_cons (f : Field) (rest : List Field) (r : RecT) :
    well_nested (f :: rest) r =
      ((if f.field_type ≠ "RECORD" then true
        else
          match lookupR f.name r with
          | some (JVal.obj sub) => well_nested f.fields sub
          | some _ => f.fields.isEmpty
          | none => true) && well_nested rest r) := by
  conv_lhs => unfold well_nested

theorem missing_leaf_nil (r : RecT) : missing_leaf [] r = false := by
  unfold missing_leaf
  rfl

theorem missing_leaf_cons (f : Field) (rest : List Field) (r : RecT) :
    missing_leaf (f :: rest) r =
      ((if f.field_type ≠ "RECORD" then !hasKeyR f.name r
        else
          match lookupR f.name r with
          | some (JVal.obj sub) => missing_leaf f.fields sub
          | some _ => false
          | none => missing_leaf f.fields []) || missing_leaf rest r) := by
  conv_lhs => unfold missing_leaf

/-- `fn` names an absent declared leaf: at some nesting level reached
through present sub-records (or the empty sub-record below an absent
`RECORD` field) the schema declares a non-`RECORD` field named `fn` that
is not a key of the record at that level. -/
def missing_leaf_named (fn : String) : List Field → RecT → Bool
  | [], _ => false
  | f :: rest, r =>
    (if f.field_type ≠ "RECORD" then (f.name == fn && !hasKeyR f.name r)
     else
       match lookupR f.name r with
       | some (JVal.obj sub) => missing_leaf_named fn f.fields sub
       | some _ => false
       | none => missing_leaf_named fn f.fields []) || missing_leaf_named fn rest r
termination_by s _ => sizeOf s
decreasing_by
  all_goals obtain ⟨nm, ft, fs⟩ := f
  all_goals simp_wf
  all_goals omega

theorem missing_leaf_named_nil (fn : String) (r : RecT) :
    missing_leaf_named fn [] r = false := by
  unfold missing_leaf_named
  rfl

theorem missing_leaf_named_cons (fn : String) (f : Field) (rest : List Field) (r : RecT) :
    missing_leaf_named fn (f :: rest) r =
      ((if f.field_type ≠ "RECORD" then (f.name == fn && !hasKeyR f.name r)
        else
          match lookupR f.name r with
          | some (JVal.obj sub) => missing_leaf_named fn f.fields sub
          | some _ => false
          | none => missing_leaf_named fn f.fields []) ||
        missing_leaf_named fn rest r) := by
  conv_lhs => unfold missing_leaf_named

/-- The coerce-mode postcondition relating output `r'` to input `r`: a
leaf present in `r` is still a key of `r'`; a leaf absent from `r` is
bound to the empty string in `r'`; a present sub-record is replaced in
`r'` by a sub-record related to it recursively; and a `RECORD` field
absent from `r` is still absent from `r'` (its leaves are left unset). -/
def leaf_defaulted : List Field → RecT → RecT → Bool
  | [], _, _ => true
  | f :: rest, r, r' =>
    (if f.field_type ≠ "RECORD" then
       (if hasKeyR f.name r then hasKeyR f.name r'
        else
          match lookupR f.name r' with
          | some (JVal.str s) => s == ""
          | _ => false)
     else
       match lookupR f.name r with
       | some (JVal.obj sub) =>
         (match lookupR f.name r' with
          | some (JVal.obj sub') => leaf_defaulted f.fields sub sub'
          | _ => false)
       | some _ => true
       | none => (lookupR f.name r').isNone) && leaf_defaulted rest r r'
termination_by s _ _ => sizeOf s
decreasing_by
  all_goals obtain ⟨nm, ft, fs⟩ := f
  all_goals simp_wf
  all_goals omega

theorem leaf_defaulted_nil (r r' : RecT) : leaf_defaulted [] r r' = true := by
  unfold leaf_defaulted
  rfl

theorem leaf_defaulted_cons (f : Field) (rest : List Field) (r r' : RecT) :
    leaf_defaulted (f :: rest) r r' =
      ((if f.field_type ≠ "RECORD" then
          (if hasKeyR f.name r then hasKeyR f.name r'
           else
             match lookupR f.name r' with
             | some (JVal.str s) => s == ""
             | _ => false)
        else
          match lookupR f.name r with
          | some (JVal.obj sub) =>
            (match lookupR f.name r' with
             | some (JVal.obj sub') => leaf_defaulted f.fields sub sub'
             | _ => false)
          | some _ => true
          | none => (lookupR f.name r').isNone) && leaf_defaulted rest r r') := by
  conv_lhs => unfold leaf_defaulted

/-- Records agreeing on a key's binding agree on the key's presence. -/
theorem hasKeyR_eq_of_lookupR_eq (k : String) (r₁ r₂ : RecT)
    (h : lookupR k r₁ = lookupR k r₂) : hasKeyR k r₁ = hasKeyR k r₂ := by
  rw [← lookupR_isSome_eq_hasKeyR, ← lookupR_isSome_eq_hasKeyR, h]

/-- The coerce postcondition only looks at the input record's bindings at
the schema's field names. -/
theorem leaf_defaulted_congr : ∀ (s : List Field) (r₁ r₂ r' : RecT),
    (∀ f ∈ s, lookupR f.name r₁ = lookupR f.name r₂) →
    leaf_defaulted s r₁ r' = leaf_defaulted s r₂ r'
  | [], r₁, r₂, r' => by
    intro _
    rw [leaf_defaulted_nil, leaf_defaulted_nil]
  | f :: rest, r₁, r₂, r' => by
    intro h
    rw [leaf_defaulted_cons, leaf_defaulted_cons]
    rw [h f (List.mem_cons_self f rest)]
    rw [hasKeyR_eq_of_lookupR_eq f.name r₁ r₂ (h f (List.mem_cons_self f rest))]
    rw [leaf_defaulted_congr rest r₁ r₂ r' (fun g hg => h g (List.mem_cons_of_mem f hg))]
termination_by s _ _ _ => sizeOf s
decreasing_by
  all_goals obtain ⟨nm, ft, fs⟩ := f
  all_goals simp_wf
  all_goals omega

/-- Every schema is well nested for the empty record. -/
theorem well_nested_empty : ∀ (s : List Field), well_nested s [] = true
  | [] => well_nested_nil_schema []
  | f :: rest => by
    rw [well_nested_cons]
    rw [well_nested_empty rest]
    by_cases hft : f.field_type ≠ "RECORD" <;> simp [hft, lookupR]
termination_by s => sizeOf s
decreasing_by
  all_goals obtain ⟨nm, ft, fs⟩ := f
  all_goals simp_wf
  all_goals omega

/-- Well-nestedness only looks at the values bound to the schema's field
names. -/
theorem well_nested_congr : ∀ (s : List Field) (r₁ r₂ : RecT),
    (∀ f ∈ s, lookupR f.name r₁ = lookupR f.name r₂) →
    well_nested s r₁ = well_nested s r₂
  | [], r₁, r₂ => by
    intro _
    rw [well_nested_nil_schema, well_nested_nil_schema]
  | f :: rest, r₁, r₂ => by
    intro h
    rw [well_nested_cons, well_nested_cons]
    rw [h f (List.mem_cons_self f rest)]
    rw [well_nested_congr rest r₁ r₂ (fun g hg => h g (List.mem_cons_of_mem f hg))]
termination_by s _ _ => sizeOf s
decreasing_by
  all_goals obtain ⟨nm, ft, fs⟩ := f
  all_goals simp_wf
  all_goals omega

/-- A schema name disjointness helper: a field of `rest` whose level
excludes `nm` has a name different from `nm`. -/
theorem name_ne_of_not_contains (rest : List Field) (nm : String) (g : Field)
    (h : ((rest.map Field.name).contains nm) = false) (hg : g ∈ rest) :
    (g.name == nm) = false := by
  by_cases hq : g.name == nm
  · exfalso
    have hmem : nm ∈ rest.map Field.name := by
      rw [← eq_of_beq hq]
      exact List.mem_map_of_mem Field.name hg
    have hcon : (rest.map Field.name).contains nm = true := List.elem_eq_true_of_mem hmem
    rw [hcon] at h
    cases h
  · simpa using hq

theorem beq_symm_false (a b : String) (h : (a == b) = false) : (b == a) = false := by
  by_cases hq : b == a
  · exfalso
    rw [eq_of_beq hq] at h
    simp at h
  · simpa using hq

/-- Coerce-mode enforcement succeeds on a record that binds none of the
schema's `RECORD`-typed field names (for a well-formed schema): every
`RECORD` field takes the absent branch, and leaves are only added. -/
theorem check_coerce_ok_of_no_rec_keys : ∀ (s : List Field) (r : RecT),
    schema_wf s = true →
    (∀ f ∈ s, f.field_type = "RECORD" → hasKeyR f.name r = false) →
    ∃ r', check_record_schema true s r = Except.ok r'
  | [], r => fun _ _ => ⟨r, check_record_schema_nil true r⟩
  | f :: rest, r => by
    intro hwf hk
    rw [schema_wf_cons] at hwf
    simp only [Bool.and_eq_true, Bool.not_eq_true'] at hwf
    obtain ⟨⟨hn, hwff⟩, hwfr⟩ := hwf
    rw [check_record_schema_cons]
    by_cases hft : f.field_type ≠ "RECORD"
    · rw [if_pos hft]
      by_cases hhk : hasKeyR f.name r
      · rw [if_pos hhk]
        exact check_coerce_ok_of_no_rec_keys rest r hwfr
          (fun g hg hgr => hk g (List.mem_cons_of_mem f hg) hgr)
      · rw [if_neg hhk, if_pos rfl]
        refine check_coerce_ok_of_no_rec_keys rest _ hwfr ?_
        intro g hg hgr
        rw [hasKeyR_append, hk g (List.mem_cons_of_mem f hg) hgr]
        have hgn : (f.name == g.name) = false :=
          beq_symm_false g.name f.name (name_ne_of_not_contains rest f.name g hn hg)
        simp [hasKeyR, hgn]
    · rw [if_neg hft]
      have hft' : f.field_type = "RECORD" := by simpa using hft
      have hkk := hk f (List.mem_cons_self f rest) hft'
      rw [lookupR_eq_none_of_not_hasKeyR f.name r hkk]
      obtain ⟨w, hw⟩ := check_coerce_ok_of_no_rec_keys f.fields [] hwff
        (fun g _ _ => rfl)
      simp only [hw]
      exact check_coerce_ok_of_no_rec_keys rest r hwfr
        (fun g hg hgr => hk g (List.mem_cons_of_mem f hg) hgr)
termination_by s _ => sizeOf s
decreasing_by
  all_goals obtain ⟨nm, ft, fs⟩ := f
  all_goals simp_wf
  all_goals omega

/-- A successful coerce-mode run leaves the record satisfying the schema
(for a well-formed schema): every reachable leaf is present. -/
theorem check_coerce_satisfies : ∀ (s : List Field) (r r' : RecT),
    schema_wf s = true → check_record_schema true s r = Except.ok r' →
    satisfies_schema s r' = true
  | [], r, r' => fun _ h => satisfies_schema_nil r'
  | f :: rest, r, r' => by
    intro hwf h
    rw [schema_wf_cons] at hwf
    simp only [Bool.and_eq_true, Bool.not_eq_true'] at hwf
    obtain ⟨⟨hn, hwff⟩, hwfr⟩ := hwf
    rw [check_record_schema_cons] at h
    rw [satisfies_schema_cons]
    by_cases hft : f.field_type ≠ "RECORD"
    · rw [if_pos hft] at h
      rw [if_pos hft]
      by_cases hhk : hasKeyR f.name r
      · rw [if_pos hhk] at h
        rw [check_preserves_hasKeyR rest true r r' f.name h hhk]
        rw [check_coerce_satisfies rest r r' hwfr h]
        rfl
      · rw [if_neg hhk, if_pos rfl] at h
        have hk1 : hasKeyR f.name (r ++ [(f.name, JVal.str "")]) = true := by
          rw [hasKeyR_append]
          simp [hasKeyR]
        rw [check_preserves_hasKeyR rest true _ r' f.name h hk1]
        rw [check_coerce_satisfies rest _ r' hwfr h]
        rfl
    · rw [if_neg hft] at h
      rw [if_neg hft]
      split at h
      · rename_i sub heq
        split at h
        · cases h
        · rename_i sub' hin
          have hframe := check_frame rest true _ r' f.name h hn
          rw [lookupR_setR_self f.name (JVal.obj sub')
            r (hasKeyR_of_lookupR f.name r _ heq)] at hframe
          have hsub := check_coerce_satisfies f.fields sub sub' hwff hin
          have hrest := check_coerce_satisfies rest _ r' hwfr h
          rw [hframe]
          simp [hsub, hrest]
      · rename_i val hno heq
        split at h
        · rename_i hemp
          have hframe := check_frame rest true r r' f.name h hn
          rw [heq] at hframe
          have hrest := check_coerce_satisfies rest r r' hwfr h
          rw [hframe]
          cases val with
          | obj o => exact absurd rfl (hno o)
          | str s' => simp [hemp, hrest]
          | num n => simp [hemp, hrest]
          | jbool b => simp [hemp, hrest]
          | null => simp [hemp, hrest]
          | arr l => simp [hemp, hrest]
        · cases h
      · rename_i heq
        split at h
        · cases h
        · have hframe := check_frame rest true r r' f.name h hn
          rw [heq] at hframe
          have hrest := check_coerce_satisfies rest r r' hwfr h
          rw [hframe]
          simp [hrest]
termination_by s _ _ => sizeOf s
decreasing_by
  all_goals obtain ⟨nm, ft, fs⟩ := f
  all_goals simp_wf
  all_goals omega

/-- A successful coerce-mode run sets every absent reachable leaf to the
empty string (for a well-formed schema): the output is related to the
input by `leaf_defaulted` — present leaves keep their key, absent leaves
are bound to `""`, present sub-records are rewritten recursively, and a
field absent at a `RECORD` name stays absent. -/
theorem check_coerce_defaults : ∀ (s : List Field) (r r' : RecT),
    schema_wf s = true → check_record_schema true s r = Except.ok r' →
    leaf_defaulted s r r' = true
  | [], r, r' => fun _ _ => leaf_defaulted_nil r r'
  | f :: rest, r, r' => by
    intro hwf h
    rw [schema_wf_cons] at hwf
    simp only [Bool.and_eq_true, Bool.not_eq_true'] at hwf
    obtain ⟨⟨hn, hwff⟩, hwfr⟩ := hwf
    rw [check_record_schema_cons] at h
    rw [leaf_defaulted_cons]
    by_cases hft : f.field_type ≠ "RECORD"
    · rw [if_pos hft] at h
      rw [if_pos hft]
      by_cases hhk : hasKeyR f.name r
      · rw [if_pos hhk] at h
        rw [if_pos hhk]
        rw [check_preserves_hasKeyR rest true r r' f.name h hhk]
        rw [check_coerce_defaults rest r r' hwfr h]
        rfl
      · rw [if_neg hhk, if_pos rfl] at h
        rw [if_neg hhk]
        have hk0 : hasKeyR f.name r = false := by simpa using hhk
        have hl1 : lookupR f.name (r ++ [(f.name, JVal.str "")]) = some (JVal.str "") := by
          rw [lookupR_append_right f.name r _ hk0]
          simp [lookupR]
        have hl2 : lookupR f.name r' = some (JVal.str "") :=
          check_preserves_value rest true _ r' f.name (JVal.str "") h hl1
            (fun sub hsub => by cases hsub)
        rw [hl2]
        have htail := check_coerce_defaults rest _ r' hwfr h
        rw [leaf_defaulted_congr rest (r ++ [(f.name, JVal.str "")]) r r'
          (fun g hg => lookupR_append_single_ne g.name f.name (JVal.str "") r
            (beq_symm_false g.name f.name (name_ne_of_not_contains rest f.name g hn hg)))]
          at htail
        rw [htail]
        rfl
    · rw [if_neg hft] at h
      rw [if_neg hft]
      split at h
      · rename_i sub heq
        split at h
        · cases h
        · rename_i sub' hin
          have hframe := check_frame rest true _ r' f.name h hn
          rw [lookupR_setR_self f.name (JVal.obj sub')
            r (hasKeyR_of_lookupR f.name r _ heq)] at hframe
          have hsub := check_coerce_defaults f.fields sub sub' hwff hin
          have htail := check_coerce_defaults rest _ r' hwfr h
          rw [leaf_defaulted_congr rest (setR f.name (JVal.obj sub') r) r r'
            (fun g hg => lookupR_setR_ne g.name f.name (JVal.obj sub') r
              (beq_symm_false g.name f.name (name_ne_of_not_contains rest f.name g hn hg)))]
            at htail
          rw [hframe]
          simp [hsub, htail]
      · rename_i val hno heq
        split at h
        · have htail := check_coerce_defaults rest r r' hwfr h
          cases val with
          | obj o => exact absurd rfl (hno o)
          | str s' => simp [htail]
          | num n => simp [htail]
          | jbool b => simp [htail]
          | null => simp [htail]
          | arr l => simp [htail]
        · cases h
      · rename_i heq
        split at h
        · cases h
        · have hframe := check_frame rest true r r' f.name h hn
          rw [heq] at hframe
          have htail := check_coerce_defaults rest r r' hwfr h
          rw [hframe, htail]
          rfl
termination_by s _ _ => sizeOf s
decreasing_by
  all_goals obtain ⟨nm, ft, fs⟩ := f
  all_goals simp_wf
  all_goals omega

/-- On a record that already satisfies a well-formed schema, coerce-mode
enforcement is the identity. -/
theorem check_of_satisfies : ∀ (s : List Field) (r : RecT),
    schema_wf s = true → satisfies_schema s r = true →
    check_record_schema true s r = Except.ok r
  | [], r => fun _ _ => check_record_schema_nil true r
  | f :: rest, r => by
    intro hwf hs
    rw [schema_wf_cons] at hwf
    simp only [Bool.and_eq_true, Bool.not_eq_true'] at hwf
    obtain ⟨⟨hn, hwff⟩, hwfr⟩ := hwf
    rw [satisfies_schema_cons, Bool.and_eq_true] at hs
    obtain ⟨hhead, hrest⟩ := hs
    rw [check_record_schema_cons]
    by_cases hft : f.field_type ≠ "RECORD"
    · rw [if_pos hft]
      rw [if_pos hft] at hhead
      rw [if_pos hhead]
      exact check_of_satisfies rest r hwfr hrest
    · rw [if_neg hft]
      rw [if_neg hft] at hhead
      rcases heq : lookupR f.name r with - | val
      · obtain ⟨w, hw⟩ := check_coerce_ok_of_no_rec_keys f.fields [] hwff (fun g _ _ => rfl)
        simp only [hw]
        exact check_of_satisfies rest r hwfr hrest
      · rw [heq] at hhead
        cases val with
        | obj sub =>
          simp only at hhead
          have hsub := check_of_satisfies f.fields sub hwff hhead
          simp only [hsub, setR_eq_self f.name (JVal.obj sub) r heq]
          exact check_of_satisfies rest r hwfr hrest
        | str s' =>
          simp only at hhead
          rw [if_pos hhead]
          exact check_of_satisfies rest r hwfr hrest
        | num n =>
          simp only at hhead
          rw [if_pos hhead]
          exact check_of_satisfies rest r hwfr hrest
        | jbool b =>
          simp only at hhead
          rw [if_pos hhead]
          exact check_of_satisfies rest r hwfr hrest
        | null =>
          simp only at hhead
          rw [if_pos hhead]
          exact check_of_satisfies rest r hwfr hrest
        | arr l =>
          simp only at hhead
          rw [if_pos hhead]
          exact check_of_satisfies rest r hwfr hrest
termination_by s _ => sizeOf s
decreasing_by
  all_goals obtain ⟨nm, ft, fs⟩ := f
  all_goals simp_wf
  all_goals omega

/-- Strict-mode enforcement fails exactly when some declared leaf is
missing: on a well-nested record, the run succeeds iff no leaf of the
schema (checked through present sub-records, and against an empty record
below absent `RECORD` fields) is absent. -/
theorem check_strict_isOk : ∀ (s : List Field) (r : RecT),
    well_nested s r = true →
    (check_record_schema false s r).isOk = !(missing_leaf s r)
  | [], r => by
    intro _
    rw [check_record_schema_nil, missing_leaf_nil]
    rfl
  | f :: rest, r => by
    intro hwn
    rw [well_nested_cons, Bool.and_eq_true] at hwn
    obtain ⟨hwhead, hwrest⟩ := hwn
    rw [check_record_schema_cons, missing_leaf_cons]
    by_cases hft : f.field_type ≠ "RECORD"
    · rw [if_pos hft]
      rw [if_pos hft]
      by_cases hhk : hasKeyR f.name r
      · rw [if_pos hhk, hhk]
        rw [check_strict_isOk rest r hwrest]
        simp
      · rw [if_neg hhk]
        simp only [Bool.not_eq_true] at hhk
        rw [hhk]
        simp [Except.isOk, Except.toBool]
    · rw [if_neg hft]
      rw [if_neg hft] at hwhead
      rw [if_neg hft]
      rcases heq : lookupR f.name r with - | val
      · rw [heq] at hwhead
        have hinner := check_strict_isOk f.fields [] (well_nested_empty f.fields)
        rcases hin : check_record_schema false f.fields [] with e | w
        · rw [hin] at hinner
          simp only [Except.isOk, Except.toBool] at hinner
          have hm : missing_leaf f.fields [] = true := by
            revert hinner
            cases missing_leaf f.fields [] <;> simp
          simp [Except.isOk, Except.toBool, hm]
        · rw [hin] at hinner
          simp only [Except.isOk, Except.toBool] at hinner
          have hm : missing_leaf f.fields [] = false := by
            revert hinner
            cases missing_leaf f.fields [] <;> simp
          rw [check_strict_isOk rest r hwrest]
          simp [hm]
      · rw [heq] at hwhead
        cases val with
        | obj sub =>
          simp only at hwhead
          have hinner := check_strict_isOk f.fields sub hwhead
          rcases hin : check_record_schema false f.fields sub with e | sub'
          · rw [hin] at hinner
            simp only [Except.isOk, Except.toBool] at hinner
            have hm : missing_leaf f.fields sub = true := by
              revert hinner
              cases missing_leaf f.fields sub <;> simp
            simp [Except.isOk, Except.toBool, hm, hin]
          · rw [hin] at hinner
            simp only [Except.isOk, Except.toBool] at hinner
            have hm : missing_leaf f.fields sub = false := by
              revert hinner
              cases missing_leaf f.fields sub <;> simp
            have hsub : sub' = sub := check_strict_id f.fields sub sub' hin
            rw [hsub] at hin
            have hrec := check_strict_isOk rest r hwrest
            have hset := setR_eq_self f.name (JVal.obj sub) r heq
            simp only [hin, hset, hm, Bool.false_or]
            exact hrec
        | str s' =>
          simp only at hwhead
          rw [if_pos hwhead, check_strict_isOk rest r hwrest]
          simp
        | num n =>
          simp only at hwhead
          rw [if_pos hwhead, check_strict_isOk rest r hwrest]
          simp
        | jbool b =>
          simp only at hwhead
          rw [if_pos hwhead, check_strict_isOk rest r hwrest]
          simp
        | null =>
          simp only at hwhead
          rw [if_pos hwhead, check_strict_isOk rest r hwrest]
          simp
        | arr l =>
          simp only at hwhead
          rw [if_pos hwhead, check_strict_isOk rest r hwrest]
          simp
termination_by s _ => sizeOf s
decreasing_by
  all_goals obtain ⟨nm, ft, fs⟩ := f
  all_goals simp_wf
  all_goals omega

/-- On a well-nested record, any strict-mode failure is a
`MissingSchemaException` naming an absent declared leaf field — never the
`TypeError` of the non-record branch, and never a name that is in fact
present. -/
theorem check_strict_error_kind : ∀ (s : List Field) (r : RecT),
    well_nested s r = true → ∀ e, check_record_schema false s r = Except.error e →
    ∃ fn, e = SchemaExc.missingSchema fn ∧ missing_leaf_named fn s r = true
  | [], r => by
    rw [check_record_schema_nil]
    intro _ e h
    cases h
  | f :: rest, r => by
    intro hwn e h
    rw [well_nested_cons, Bool.and_eq_true] at hwn
    obtain ⟨hwhead, hwrest⟩ := hwn
    rw [check_record_schema_cons] at h
    by_cases hft : f.field_type ≠ "RECORD"
    · rw [if_pos hft] at h
      by_cases hhk : hasKeyR f.name r
      · rw [if_pos hhk] at h
        obtain ⟨fn, he, hm⟩ := check_strict_error_kind rest r hwrest e h
        refine ⟨fn, he, ?_⟩
        rw [missing_leaf_named_cons, Bool.or_eq_true]
        exact Or.inr hm
      · rw [if_neg hhk] at h
        simp only [Bool.false_eq_true, if_false] at h
        cases h
        refine ⟨f.name, rfl, ?_⟩
        rw [missing_leaf_named_cons, Bool.or_eq_true]
        left
        rw [if_pos hft]
        simp only [Bool.not_eq_true] at hhk
        simp [hhk]
    · rw [if_neg hft] at h
      rw [if_neg hft] at hwhead
      split at h
      · rename_i sub heq
        rw [heq] at hwhead
        simp only at hwhead
        split at h
        · rename_i e' hin
          cases h
          obtain ⟨fn, he, hm⟩ := check_strict_error_kind f.fields sub hwhead _ hin
          refine ⟨fn, he, ?_⟩
          rw [missing_leaf_named_cons, Bool.or_eq_true]
          left
          rw [if_neg hft, heq]
          exact hm
        · rename_i sub' hin
          have hsub : sub' = sub := check_strict_id f.fields sub sub' hin
          rw [hsub, setR_eq_self f.name (JVal.obj sub) r heq] at h
          obtain ⟨fn, he, hm⟩ := check_strict_error_kind rest r hwrest e h
          refine ⟨fn, he, ?_⟩
          rw [missing_leaf_named_cons, Bool.or_eq_true]
          exact Or.inr hm
      · rename_i val hno heq
        rw [heq] at hwhead
        have hemp : f.fields.isEmpty = true := by
          cases val with
          | obj o => exact absurd rfl (hno o)
          | str s' => simpa using hwhead
          | num n => simpa using hwhead
          | jbool b => simpa using hwhead
          | null => simpa using hwhead
          | arr l => simpa using hwhead
        rw [if_pos hemp] at h
        obtain ⟨fn, he, hm⟩ := check_strict_error_kind rest r hwrest e h
        refine ⟨fn, he, ?_⟩
        rw [missing_leaf_named_cons, Bool.or_eq_true]
        exact Or.inr hm
      · rename_i heq
        split at h
        · rename_i e' hin
          cases h
          obtain ⟨fn, he, hm⟩ :=
            check_strict_error_kind f.fields [] (well_nested_empty f.fields) _ hin
          refine ⟨fn, he, ?_⟩
          rw [missing_leaf_named_cons, Bool.or_eq_true]
          left
          rw [if_neg hft, heq]
          exact hm
        · obtain ⟨fn, he, hm⟩ := check_strict_error_kind rest r hwrest e h
          refine ⟨fn, he, ?_⟩
          rw [missing_leaf_named_cons, Bool.or_eq_true]
          exact Or.inr hm
termination_by s _ => sizeOf s
decreasing_by
  all_goals obtain ⟨nm, ft, fs⟩ := f
  all_goals simp_wf
  all_goals omega

/-- Coerce-mode enforcement never fails on a well-nested record (for a
well-formed schema). -/
theorem check_coerce_ok : ∀ (s : List Field) (r : RecT),
    schema_wf s = true → well_nested s r = true →
    ∃ r', check_record_schema true s r = Except.ok r'
  | [], r => fun _ _ => ⟨r, check_record_schema_nil true r⟩
  | f :: rest, r => by
    intro hwf hwn
    rw [schema_wf_cons] at hwf
    simp only [Bool.and_eq_true, Bool.not_eq_true'] at hwf
    obtain ⟨⟨hn, hwff⟩, hwfr⟩ := hwf
    rw [well_nested_cons, Bool.and_eq_true] at hwn
    obtain ⟨hwhead, hwrest⟩ := hwn
    rw [check_record_schema_cons]
    by_cases hft : f.field_type ≠ "RECORD"
    · rw [if_pos hft]
      by_cases hhk : hasKeyR f.name r
      · rw [if_pos hhk]
        exact check_coerce_ok rest r hwfr hwrest
      · rw [if_neg hhk, if_pos rfl]
        refine check_coerce_ok rest _ hwfr ?_
        rw [well_nested_congr rest _ r ?_]
        · exact hwrest
        · intro g hg
          exact lookupR_append_single_ne g.name f.name (JVal.str "") r
            (beq_symm_false g.name f.name (name_ne_of_not_contains rest f.name g hn hg))
    · rw [if_neg hft]
      rw [if_neg hft] at hwhead
      rcases heq : lookupR f.name r with - | val
      · obtain ⟨w, hw⟩ := check_coerce_ok_of_no_rec_keys f.fields [] hwff (fun g _ _ => rfl)
        simp only [hw]
        exact check_coerce_ok rest r hwfr hwrest
      · rw [heq] at hwhead
        cases val with
        | obj sub =>
          simp only at hwhead
          obtain ⟨sub', hsub⟩ := check_coerce_ok f.fields sub hwff hwhead
          simp only [hsub]
          refine check_coerce_ok rest _ hwfr ?_
          rw [well_nested_congr rest _ r ?_]
          · exact hwrest
          · intro g hg
            exact lookupR_setR_ne g.name f.name (JVal.obj sub') r
              (beq_symm_false g.name f.name (name_ne_of_not_contains rest f.name g hn hg))
        | str s' =>
          simp only at hwhead
          rw [if_pos hwhead]
          exact check_coerce_ok rest r hwfr hwrest
        | num n =>
          simp only at hwhead
          rw [if_pos hwhead]
          exact check_coerce_ok rest r hwfr hwrest
        | jbool b =>
          simp only at hwhead
          rw [if_pos hwhead]
          exact check_coerce_ok rest r hwfr hwrest
        | null =>
          simp only at hwhead
          rw [if_pos hwhead]
          exact check_coerce_ok rest r hwfr hwrest
        | arr l =>
          simp only at hwhead
          rw [if_pos hwhead]
          exact check_coerce_ok rest r hwfr hwrest
termination_by s _ => sizeOf s
decreasing_by
  all_goals obtain ⟨nm, ft, fs⟩ := f
  all_goals simp_wf
  all_goals omega

theorem schema_wf_nil : schema_wf [] = true := by
  unfold schema_wf
  rfl

/-- The schema refuting C2 as stated: two fields share the name `"a"`,
one `RECORD`-typed and one leaf. -/
def c2xSchema : List Field :=
  [⟨"a", "RECORD", [⟨"b", "STRING", []⟩]⟩, ⟨"a", "STRING", []⟩]

/-- C2 (counterexample): enforcing `c2xSchema` on the empty record in
coerce mode succeeds and stores the leaf `a = ""`; applying the same
enforcement a second time to that result raises (`''['b'] = ''` — a
`TypeError` in the original), so the second application is not a no-op. -/
theorem c2_counterexample :
    check_record_schema true c2xSchema [] = Except.ok [("a", JVal.str "")] ∧
    check_record_schema true c2xSchema [("a", JVal.str "")] =
      Except.error SchemaExc.typeError := by
  constructor
  · simp [c2xSchema, check_record_schema_cons, check_record_schema_nil, hasKeyR, lookupR]
  · simp [c2xSchema, check_record_schema_cons, check_record_schema_nil, hasKeyR, lookupR]

/-- C2 (amended): for schemas whose field names are pairwise distinct at
every nesting level — true of the repository's schema documents — applying
`check_record_schema` in coerce mode a second time to a record already
processed by it leaves the record unchanged, at every nesting depth of
`RECORD` fields. -/
theorem c2_coerce_idempotent (s : List Field) (r r' : RecT)
    (hwf : schema_wf s = true)
    (h : check_record_schema true s r = Except.ok r') :
    check_record_schema true s r' = Except.ok r' :=
  check_of_satisfies s r' hwf (check_coerce_satisfies s r r' hwf h)

/-- The well-formed schema used by the C2 witness. -/
def c2wSchema : List Field :=
  [⟨"a", "STRING", []⟩, ⟨"n", "RECORD", [⟨"b", "STRING", []⟩]⟩]

/-- C2 (witness): the amended theorem applied to a concrete record: the
first coerce run adds `a = ""` and `n.b = ""`, and re-running enforcement
on the result returns it unchanged. -/
theorem c2_witness :
    check_record_schema true c2wSchema
        [("n", JVal.obj [("b", JVal.str "")]), ("a", JVal.str "")] =
      Except.ok [("n", JVal.obj [("b", JVal.str "")]), ("a", JVal.str "")] :=
  c2_coerce_idempotent c2wSchema [("n", JVal.obj [])]
    [("n", JVal.obj [("b", JVal.str "")]), ("a", JVal.str "")]
    (by simp [c2wSchema, schema_wf_cons, schema_wf_nil])
    (by simp [c2wSchema, check_record_schema_cons, check_record_schema_nil,
      hasKeyR, lookupR, setR])

/-- The schema refuting C5 as stated: a `RECORD` field with one leaf. -/
def c5xSchema : List Field := [⟨"a", "RECORD", [⟨"b", "STRING", []⟩]⟩]

/-- C5 (counterexample): coerce-mode enforcement of `c5xSchema` on the
empty record succeeds but returns the record unchanged — the leaf `a.b`
declared by the schema is still absent (the freshly created sub-record is
discarded), contradicting "sets every absent leaf field to the empty
string". -/
theorem c5_counterexample :
    check_record_schema true c5xSchema [] = Except.ok [] ∧
    missing_leaf c5xSchema [] = true := by
  constructor
  · simp [c5xSchema, check_record_schema_cons, check_record_schema_nil, hasKeyR, lookupR]
  · simp [c5xSchema, missing_leaf_cons, missing_leaf_nil, hasKeyR, lookupR]

/-- C5 (amended): for a well-formed schema and a well-nested record,
strict enforcement raises exactly when some leaf field declared in the
schema is absent (leaves under an absent `RECORD` field being checked
against an empty sub-record), and any strict-mode error is a
`MissingSchemaException` naming an absent declared leaf field;
coerce-mode enforcement never raises, and its result binds every absent
leaf reachable through present sub-records to the empty string (present
leaves keep their key, present sub-records are rewritten recursively) —
but a `RECORD` field absent from the input stays absent from the output,
so the leaves under it are left unset, not defaulted to the empty
string. -/
theorem c5_enforcement_errors (s : List Field) (r : RecT)
    (hwf : schema_wf s = true) (hwn : well_nested s r = true) :
    (check_record_schema false s r).isOk = !(missing_leaf s r) ∧
    (∀ e, check_record_schema false s r = Except.error e →
      ∃ fn, e = SchemaExc.missingSchema fn ∧ missing_leaf_named fn s r = true) ∧
    ∃ r', check_record_schema true s r = Except.ok r' ∧
      satisfies_schema s r' = true ∧ leaf_defaulted s r r' = true := by
  refine ⟨check_strict_isOk s r hwn, check_strict_error_kind s r hwn, ?_⟩
  obtain ⟨r', h⟩ := check_coerce_ok s r hwf hwn
  exact ⟨r', h, check_coerce_satisfies s r r' hwf h, check_coerce_defaults s r r' hwf h⟩

/-- The schema used by the C5 witness. -/
def c5wSchema : List Field := [⟨"x", "STRING", []⟩]

/-- C5 (witness): the amended theorem at a concrete schema and the empty
record: strict mode fails with an error naming the missing leaf `x`,
while coerce mode succeeds, binds `x` to `""`, and the output is related
to the input by the defaulting postcondition. -/
theorem c5_witness :
    (check_record_schema false c5wSchema []).isOk = !(missing_leaf c5wSchema []) ∧
    (∃ fn, SchemaExc.missingSchema "x" = SchemaExc.missingSchema fn ∧
      missing_leaf_named fn c5wSchema [] = true) ∧
    check_record_schema true c5wSchema [] = Except.ok [("x", JVal.str "")] ∧
    satisfies_schema c5wSchema [("x", JVal.str "")] = true ∧
    leaf_defaulted c5wSchema [] [("x", JVal.str "")] = true := by
  have h := c5_enforcement_errors c5wSchema []
    (by simp [c5wSchema, schema_wf_cons, schema_wf_nil])
    (well_nested_empty c5wSchema)
  obtain ⟨r', hr, hs, hd⟩ := h.2.2
  have hc : check_record_schema true c5wSchema [] = Except.ok [("x", JVal.str "")] := by
    simp [c5wSchema, check_record_schema_cons, check_record_schema_nil, hasKeyR]
  rw [hc] at hr
  cases hr
  exact ⟨h.1,
    h.2.1 (SchemaExc.missingSchema "x")
      (by simp [c5wSchema, check_record_schema_cons, hasKeyR]),
    hc, hs, hd⟩

/-! ## Claim C6: users merged from a secondary source only -/

/-- The primary-source (auth_user) output columns other than the id
itself. -/
def primary_five : List String :=
  ["username", "email", "is_staff", "last_login", "date_joined"]

/-- The emitted row is keyed by `uid`: its `user_id` field holds exactly
that string. -/
def row_user_id_is (uid : String) (r : RecT) : Bool :=
  match lookupR "user_id" r with
  | some (JVal.str s) => s == uid
  | _ => false

theorem lookupRec_dsetRec_self (k : String) (v : Option String) (t : URec) :
    lookupRec k (dsetRec k v t) = some v := by
  induction t with
  | nil => simp [dsetRec, lookupRec]
  | cons kv rest ih =>
    obtain ⟨k', v'⟩ := kv
    by_cases h : k' == k
    · simp [dsetRec, lookupRec, h, eq_of_beq h]
    · simp [dsetRec, lookupRec, h, ih]

theorem lookupRec_dsetRec_ne (k k' : String) (v : Option String) (t : URec)
    (h : (k' == k) = false) : lookupRec k (dsetRec k' v t) = lookupRec k t := by
  induction t with
  | nil => simp [dsetRec, lookupRec, h]
  | cons kv rest ih =>
    obtain ⟨k'', v'⟩ := kv
    by_cases h2 : k'' == k'
    · have h3 : (k'' == k) = false := by
        rw [eq_of_beq h2]
        exact h
      simp [dsetRec, lookupRec, h2, h3, h]
    · by_cases h4 : k'' == k <;> simp [dsetRec, lookupRec, h2, h4, ih]

theorem lookupU_dsetU_self (k : Option String) (rec_ : URec) (us : Users) :
    lookupU k (dsetU k rec_ us) = some rec_ := by
  induction us with
  | nil => simp [dsetU, lookupU]
  | cons kv rest ih =>
    obtain ⟨k', r'⟩ := kv
    by_cases h : k' == k
    · simp [dsetU, lookupU, h, eq_of_beq h]
    · simp [dsetU, lookupU, h, ih]

theorem lookupU_dsetU_ne (k k' : Option String) (rec_ : URec) (us : Users)
    (h : (k' == k) = false) : lookupU k (dsetU k' rec_ us) = lookupU k us := by
  induction us with
  | nil => simp [dsetU, lookupU, h]
  | cons kv rest ih =>
    obtain ⟨k'', r'⟩ := kv
    by_cases h2 : k'' == k'
    · have h3 : (k'' == k) = false := by
        rw [eq_of_beq h2]
        exact h
      simp [dsetU, lookupU, h2, h3, h]
    · by_cases h4 : k'' == k <;> simp [dsetU, lookupU, h2, h4, ih]

theorem mem_dsetU (p : Option String × URec) (k : Option String) (rec_ : URec) :
    ∀ us : Users, p ∈ dsetU k rec_ us → p = (k, rec_) ∨ p ∈ us
  | [], h => by
    simp [dsetU] at h
    exact Or.inl h
  | (k', r') :: rest, h => by
    simp only [dsetU] at h
    by_cases h2 : k' == k
    · rw [if_pos h2] at h
      rcases List.mem_cons.mp h with h3 | h3
      · exact Or.inl h3
      · exact Or.inr (List.mem_cons_of_mem _ h3)
    · rw [if_neg (by simpa using h2)] at h
      rcases List.mem_cons.mp h with h3 | h3
      · exact Or.inr (by simp [h3])
      · rcases mem_dsetU p k rec_ rest h3 with h4 | h4
        · exact Or.inl h4
        · exact Or.inr (List.mem_cons_of_mem _ h4)

theorem dsetU_map_fst (k : Option String) (rec_ : URec) (us : Users) :
    (dsetU k rec_ us).map Prod.fst =
      if (us.map Prod.fst).contains k then us.map Prod.fst
      else us.map Prod.fst ++ [k] := by
  induction us with
  | nil => simp [dsetU]
  | cons kv rest ih =>
    obtain ⟨k', r'⟩ := kv
    by_cases h : k' == k
    · simp only [dsetU, h, if_pos, List.map_cons, List.contains_cons]
      rw [eq_of_beq h]
      simp
    · simp only [dsetU, h, Bool.false_eq_true, if_false, List.map_cons, List.contains_cons, ih]
      have hke : (k == k') = false := by
        by_cases hq : k == k'
        · exfalso
          rw [eq_of_beq hq] at h
          simp at h
        · simpa using hq
      rw [hke]
      cases hc : (rest.map Prod.fst).contains k <;> simp [hc]

theorem nodup_dsetU (k : Option String) (rec_ : URec) (us : Users)
    (h : (us.map Prod.fst).Nodup) : ((dsetU k rec_ us).map Prod.fst).Nodup := by
  rw [dsetU_map_fst]
  by_cases hc : (us.map Prod.fst).contains k
  · rw [if_pos hc]
    exact h
  · rw [if_neg (by simpa using hc)]
    rw [List.nodup_append]
    refine ⟨h, List.nodup_singleton k, ?_⟩
    intro a ha hb
    simp only [List.mem_singleton] at hb
    subst hb
    exact hc (List.elem_eq_true_of_mem ha)

theorem lookupU_isSome_dsetU (q k : Option String) (rec_ : URec) (us : Users)
    (h : (lookupU q us).isSome = true) : (lookupU q (dsetU k rec_ us)).isSome = true := by
  by_cases hq : k == q
  · rw [eq_of_beq hq, lookupU_dsetU_self]
    rfl
  · rw [lookupU_dsetU_ne q k rec_ us (by simpa using hq)]
    exact h

theorem lookupU_mem (k : Option String) (rec_ : URec) :
    ∀ us : Users, lookupU k us = some rec_ → (k, rec_) ∈ us
  | [], h => by simp [lookupU] at h
  | (k', r') :: rest, h => by
    simp only [lookupU] at h
    by_cases h2 : k' == k
    · rw [if_pos h2] at h
      cases h
      rw [eq_of_beq h2]
      exact List.mem_cons_self _ _
    · rw [if_neg (by simpa using h2)] at h
      exact List.mem_cons_of_mem _ (lookupU_mem k rec_ rest h)

theorem lookupRec_foldl_dsetRec (row : RowS) (k : String) :
    ∀ (cols : List String) (t : URec), (∀ c ∈ cols, (c == k) = false) →
    lookupRec k (cols.foldl (fun t c => dsetRec c (lookupS c row) t) t) = lookupRec k t
  | [], t, _ => rfl
  | c :: cols, t, h => by
    simp only [List.foldl_cons]
    rw [lookupRec_foldl_dsetRec row k cols _ (fun x hx => h x (List.mem_cons_of_mem c hx))]
    exact lookupRec_dsetRec_ne k c (lookupS c row) t (h c (List.mem_cons_self c cols))

/-- The invariant maintained by the `make_user_info_combo` merge for a
user id `uid` that never occurs in the primary dump: users-dict keys are
unique, every record's `user_id` field equals its key, and the record
keyed by `uid` binds none of the primary-only columns. -/
def users_inv (uid : String) (users : Users) : Prop :=
  ((users.map Prod.fst).Nodup) ∧
  (∀ p ∈ users, lookupRec "user_id" p.2 = some p.1) ∧
  (∀ p ∈ users, p.1 = some uid → ∀ c ∈ primary_five, lookupRec c p.2 = none)

theorem seed_rec_user_id (uidv : Option String) (row : RowS) :
    lookupRec "user_id"
      (user_cols.map (fun k => (k, if k == "user_id" then uidv else lookupS k row))) =
      some uidv := rfl

theorem users_inv_nil (uid : String) : users_inv uid [] := by
  refine ⟨List.nodup_nil, ?_, ?_⟩ <;> intro p hp <;> cases hp

theorem seed_primary_inv (uid : String) : ∀ (rows : List RowS) (users : Users),
    users_inv uid users → (∀ row ∈ rows, ¬ lookupS "id" row = some uid) →
    users_inv uid (seed_primary rows users)
  | [], users, hinv, _ => hinv
  | row :: rest, users, hinv, hrows => by
    simp only [seed_primary]
    refine seed_primary_inv uid rest _ ?_ (fun r hr => hrows r (List.mem_cons_of_mem row hr))
    obtain ⟨h1, h2, h3⟩ := hinv
    refine ⟨nodup_dsetU _ _ _ h1, ?_, ?_⟩
    · intro p hp
      rcases mem_dsetU p _ _ users hp with h | h
      · rw [h]
        exact seed_rec_user_id (lookupS "id" row) row
      · exact h2 p h
    · intro p hp hk c hc
      rcases mem_dsetU p _ _ users hp with h | h
      · exfalso
        rw [h] at hk
        exact hrows row (List.mem_cons_self row rest) hk
      · exact h3 p h hk c hc

theorem user_id_not_in_five : ∀ c ∈ primary_five, ("user_id" == c) = false := by
  decide

theorem apply_secondary_row_inv (uid pfx : String) (cols : List String) (row : RowS)
    (users : Users)
    (hcu : ∀ c ∈ cols, (c == "user_id") = false)
    (hc5 : ∀ c ∈ cols, ∀ q ∈ primary_five, (c == q) = false)
    (hinv : users_inv uid users) :
    users_inv uid (apply_secondary_row pfx cols row users) := by
  obtain ⟨h1, h2, h3⟩ := hinv
  simp only [apply_secondary_row]
  refine ⟨nodup_dsetU _ _ _ h1, ?_, ?_⟩
  · intro p hp
    rcases mem_dsetU p _ _ users hp with h | h
    · rw [h]
      rw [lookupRec_foldl_dsetRec row "user_id" cols _ hcu]
      exact lookupRec_dsetRec_self "user_id" (join_value pfx row) _
    · exact h2 p h
  · intro p hp hk c hc
    rcases mem_dsetU p _ _ users hp with h | h
    · rw [h]
      rw [h] at hk
      simp only at hk
      rw [lookupRec_foldl_dsetRec row c cols _ (fun x hx => hc5 x hx c hc)]
      rw [lookupRec_dsetRec_ne c "user_id" (join_value pfx row) _
        (user_id_not_in_five c hc)]
      rcases hu : lookupU (join_value pfx row) users with - | t
      · rfl
      · have hmem := lookupU_mem (join_value pfx row) t users hu
        rw [hk] at hmem
        exact h3 (some uid, t) hmem rfl c hc
    · exact h3 p h hk c hc

theorem apply_secondary_inv (uid pfx : String) (cols : List String)
    (hcu : ∀ c ∈ cols, (c == "user_id") = false)
    (hc5 : ∀ c ∈ cols, ∀ q ∈ primary_five, (c == q) = false) :
    ∀ (rows : List RowS) (users : Users), users_inv uid users →
    users_inv uid (apply_secondary pfx cols rows users)
  | [], _, hinv => hinv
  | row :: rest, users, hinv => by
    simp only [apply_secondary]
    exact apply_secondary_inv uid pfx cols hcu hc5 rest _
      (apply_secondary_row_inv uid pfx cols row users hcu hc5 hinv)

theorem apply_secondary_isSome (uid pfx : String) (cols : List String) :
    ∀ (rows : List RowS) (users : Users),
    (lookupU (some uid) users).isSome = true →
    (lookupU (some uid) (apply_secondary pfx cols rows users)).isSome = true
  | [], _, h => h
  | row :: rest, users, h => by
    simp only [apply_secondary]
    refine apply_secondary_isSome uid pfx cols rest _ ?_
    simp only [apply_secondary_row]
    exact lookupU_isSome_dsetU _ _ _ _ h

theorem apply_secondary_creates (uid pfx : String) (cols : List String) :
    ∀ (rows : List RowS) (users : Users),
    (rows.any (fun row => join_value pfx row == some uid)) = true →
    (lookupU (some uid) (apply_secondary pfx cols rows users)).isSome = true
  | [], _, h => by simp at h
  | row :: rest, users, h => by
    simp only [List.any_cons, Bool.or_eq_true] at h
    simp only [apply_secondary]
    rcases h with h | h
    · refine apply_secondary_isSome uid pfx cols rest _ ?_
      simp only [apply_secondary_row]
      rw [eq_of_beq h, lookupU_dsetU_self]
      rfl
    · exact apply_secondary_creates uid pfx cols rest _ h

theorem countP_key_zero (uid : String) : ∀ us : Users,
    (some uid) ∉ us.map Prod.fst →
    us.countP (fun p => p.1 == some uid) = 0
  | [], _ => rfl
  | (k, r) :: rest, h => by
    simp only [List.map_cons, List.mem_cons, not_or] at h
    rw [List.countP_cons]
    rw [countP_key_zero uid rest h.2]
    have hne : ¬ k = some uid := fun hq => h.1 hq.symm
    simp [hne]

theorem countP_key_one (uid : String) : ∀ us : Users,
    (us.map Prod.fst).Nodup → (lookupU (some uid) us).isSome = true →
    us.countP (fun p => p.1 == some uid) = 1
  | [], _, h => by simp [lookupU] at h
  | (k, r) :: rest, hnd, h => by
    simp only [List.map_cons, List.nodup_cons] at hnd
    rw [List.countP_cons]
    by_cases hk : k == some uid
    · have hku : k = some uid := eq_of_beq hk
      rw [countP_key_zero uid rest (by rw [← hku]; exact hnd.1)]
      simp [hk]
    · simp only [lookupU, hk, Bool.false_eq_true, if_false] at h
      rw [countP_key_one uid rest hnd.2 h]
      simp [hk]

/-- The `user_id` column of the emitted row, before schema enforcement. -/
theorem build_outrow_user_id (canon : String → String) (pfloat : String → Option String)
    (rec_ : URec) :
    lookupR "user_id" (build_outrow canon pfloat rec_) =
      some (JVal.str (uic_field_val canon pfloat "user_id" (lookupRec "user_id" rec_))) :=
  rfl

/-- The primary-only columns of the emitted row, before schema
enforcement. -/
theorem build_outrow_five (canon : String → String) (pfloat : String → Option String)
    (rec_ : URec) (c : String) (hc : c ∈ primary_five) :
    lookupR c (build_outrow canon pfloat rec_) =
      some (JVal.str (uic_field_val canon pfloat c (lookupRec c rec_))) := by
  fin_cases hc <;> rfl

/-- The emission transform of the `user_id` column: no canonicalizer or
grade reformatting applies, only the NULL/null normalization. -/
theorem uic_field_val_user_id (canon : String → String) (pfloat : String → Option String)
    (v0 : Option (Option String)) :
    uic_field_val canon pfloat "user_id" v0 =
      (match v0 with
       | some (some s) => if s = "NULL" ∨ s = "null" then "" else s
       | _ => "") := by
  have h1 : Py.pyIn "course_id" "user_id" = false := rfl
  have h2 : Py.pyIn "certificate_grade" "user_id" = false := rfl
  rcases v0 with - | v
  · simp [uic_field_val, h1, h2]
  · rcases v with - | s
    · simp [uic_field_val, h1, h2]
    · simp [uic_field_val, h1, h2]

/-- The emission transform of an absent primary-only column is the empty
string. -/
theorem uic_field_val_five_none (canon : String → String) (pfloat : String → Option String)
    (c : String) (hc : c ∈ primary_five) :
    uic_field_val canon pfloat c none = "" := by
  fin_cases hc <;> rfl

/-- Python truthiness of the emitted `user_id` column. -/
theorem out_falsy_user_id (canon : String → String) (pfloat : String → Option String)
    (rec_ : URec) :
    out_falsy (build_outrow canon pfloat rec_) "user_id" =
      (uic_field_val canon pfloat "user_id" (lookupRec "user_id" rec_) == "") := by
  unfold out_falsy
  rw [build_outrow_user_id]

/-- The emitted `user_id` value of a record keyed by `k ≠ some uid` never
equals a non-degenerate `uid`. -/
theorem uic_user_id_ne_of_key_ne (canon : String → String) (pfloat : String → Option String)
    (uid : String) (k : Option String)
    (hu1 : ¬ uid = "") (hk : ¬ k = some uid) :
    ¬ uic_field_val canon pfloat "user_id" (some k) = uid := by
  rw [uic_field_val_user_id]
  rcases k with - | s
  · simpa using fun hq => hu1 hq.symm
  · have hs : ¬ s = uid := fun hq => hk (by rw [hq])
    by_cases hn : s = "NULL" ∨ s = "null"
    · simp only [hn, if_pos]
      exact fun hq => hu1 hq.symm
    · simp only [hn, if_neg, not_false_iff]
      exact hs

/-- The emission loop: each output row's `user_id` equals the key of the
users-dict entry it came from, so the rows keyed by a non-degenerate `uid`
that never occurs in the primary dump are counted exactly by the dict
entries keyed `some uid`, and such rows carry empty primary-only
columns. -/
theorem emit_users_spec (canon : String → String) (pfloat : String → Option String)
    (schema : List Field) (uid : String)
    (hu1 : ¬ uid = "") (hu2 : ¬ uid = "NULL") (hu3 : ¬ uid = "null") :
    ∀ (users : Users) (out : List RecT),
    emit_users canon pfloat schema users = Except.ok out →
    (∀ p ∈ users, lookupRec "user_id" p.2 = some p.1) →
    (∀ p ∈ users, p.1 = some uid → ∀ c ∈ primary_five, lookupRec c p.2 = none) →
    (out.filter (row_user_id_is uid)).length =
      users.countP (fun p => p.1 == some uid) ∧
    (∀ r ∈ out, row_user_id_is uid r = true →
      ∀ c ∈ primary_five, lookupR c r = some (JVal.str ""))
  | [], out, h, _, _ => by
    simp only [emit_users] at h
    cases h
    exact ⟨rfl, by intro r hr; cases hr⟩
  | (k, rec_) :: rest, out, h, h2, h3 => by
    have hid : lookupRec "user_id" rec_ = some k :=
      h2 (k, rec_) (List.mem_cons_self _ _)
    simp only [emit_users] at h
    by_cases hdrop : (out_falsy (build_outrow canon pfloat rec_) "user_id" &&
        out_falsy (build_outrow canon pfloat rec_) "certificate_user_id") = true
    · rw [if_pos hdrop] at h
      obtain ⟨ih1, ih2⟩ := emit_users_spec canon pfloat schema uid hu1 hu2 hu3 rest out h
        (fun p hp => h2 p (List.mem_cons_of_mem _ hp))
        (fun p hp => h3 p (List.mem_cons_of_mem _ hp))
      have hk : (k == some uid) = false := by
        by_cases hq : k == some uid
        · exfalso
          have hku : k = some uid := eq_of_beq hq
          have hfal : out_falsy (build_outrow canon pfloat rec_) "user_id" = true :=
            (Bool.and_eq_true _ _).mp hdrop |>.1
          rw [out_falsy_user_id, hid, hku, uic_field_val_user_id] at hfal
          simp only [hu2, hu3, or_self, if_neg, not_false_iff] at hfal
          exact hu1 (by simpa using hfal)
        · simpa using hq
      refine ⟨?_, ih2⟩
      rw [List.countP_cons]
      simp [hk, ih1]
    · rw [if_neg hdrop] at h
      split at h
      · cases h
      · rename_i outrow' hc
        split at h
        · cases h
        · split at h
          · cases h
          · rename_i out_rest hrest
            cases h
            obtain ⟨ih1, ih2⟩ := emit_users_spec canon pfloat schema uid hu1 hu2 hu3
              rest out_rest hrest
              (fun p hp => h2 p (List.mem_cons_of_mem _ hp))
              (fun p hp => h3 p (List.mem_cons_of_mem _ hp))
            have hval : lookupR "user_id" outrow' =
                some (JVal.str (uic_field_val canon pfloat "user_id" (some k))) := by
              refine check_preserves_value schema true _ outrow' "user_id" _ hc ?_
                (fun sub hq => JVal.noConfusion hq)
              rw [build_outrow_user_id, hid]
            by_cases hk : k == some uid
            · have hku : k = some uid := eq_of_beq hk
              have hvu : uic_field_val canon pfloat "user_id" (some k) = uid := by
                rw [hku, uic_field_val_user_id]
                simp [hu2, hu3]
              have hrow : row_user_id_is uid outrow' = true := by
                unfold row_user_id_is
                rw [hval, hvu]
                simp
              constructor
              · rw [List.filter_cons, hrow, List.countP_cons]
                simp [hk, ih1]
              · intro r hr hru c hc5
                rcases List.mem_cons.mp hr with hr | hr
                · subst hr
                  have hnone : lookupRec c rec_ = none :=
                    h3 (k, rec_) (List.mem_cons_self _ _) hku c hc5
                  refine check_preserves_value schema true _ r c _ hc ?_
                    (fun sub hq => JVal.noConfusion hq)
                  rw [build_outrow_five canon pfloat rec_ c hc5, hnone,
                    uic_field_val_five_none canon pfloat c hc5]
                · exact ih2 r hr hru c hc5
            · have hkne : ¬ k = some uid := fun hq => (by simpa using hk : ¬ (k == some uid) = true) (by rw [hq]; simp)
              have hvne := uic_user_id_ne_of_key_ne canon pfloat uid k hu1 hkne
              have hrow : row_user_id_is uid outrow' = false := by
                unfold row_user_id_is
                rw [hval]
                simpa using hvne
              constructor
              · rw [List.filter_cons, hrow, List.countP_cons]
                simp only [Bool.false_eq_true, if_false, hk]
                rw [ih1]
                simp
              · intro r hr hru c hc5
                rcases List.mem_cons.mp hr with hr | hr
                · subst hr
                  rw [hrow] at hru
                  cases hru
                · exact ih2 r hr hru c hc5

/-- C6 (amended): a user id that appears only in a secondary source — and
is non-empty and not the literal `"NULL"`/`"null"` — produces exactly one
output record of `make_user_info_combo` keyed by that id, in which every
primary-source column (`username`, `email`, `is_staff`, `last_login`,
`date_joined`) is the empty string, and the record is not dropped before
emission.  (An id equal to the NULL literal or the empty string is
normalized to `""` and the record is then dropped by the id guard.) -/
theorem c6_secondary_only_user (canon : String → String) (pfloat : String → Option String)
    (schema : List Field)
    (authRows profileRows enrollRows certRows idmapRows : List RowS)
    (uid : String) (out : List RecT)
    (hq1 : ¬ uid = "") (hq2 : ¬ uid = "NULL") (hq3 : ¬ uid = "null")
    (hprim : ∀ row ∈ authRows, ¬ lookupS "id" row = some uid)
    (hsec : (profileRows.any (fun row => join_value "profile" row == some uid) ||
      enrollRows.any (fun row => join_value "enrollment" row == some uid) ||
      certRows.any (fun row => join_value "certificate" row == some uid) ||
      idmapRows.any (fun row => join_value "id_map" row == some uid)) = true)
    (hok : make_user_info_combo canon pfloat schema authRows profileRows enrollRows
      certRows idmapRows = Except.ok out) :
    (out.filter (row_user_id_is uid)).length = 1 ∧
    (∀ r ∈ out, row_user_id_is uid r = true →
      ∀ c ∈ primary_five, lookupR c r = some (JVal.str "")) := by
  simp only [make_user_info_combo] at hok
  have hcuP : ∀ c ∈ profile_cols, (c == "user_id") = false := by decide
  have hc5P : ∀ c ∈ profile_cols, ∀ q ∈ primary_five, (c == q) = false := by decide
  have hcuE : ∀ c ∈ enrollment_cols, (c == "user_id") = false := by decide
  have hc5E : ∀ c ∈ enrollment_cols, ∀ q ∈ primary_five, (c == q) = false := by decide
  have hcuC : ∀ c ∈ certificate_cols, (c == "user_id") = false := by decide
  have hc5C : ∀ c ∈ certificate_cols, ∀ q ∈ primary_five, (c == q) = false := by decide
  have hcuI : ∀ c ∈ id_map_cols, (c == "user_id") = false := by decide
  have hc5I : ∀ c ∈ id_map_cols, ∀ q ∈ primary_five, (c == q) = false := by decide
  have hinv0 : users_inv uid (seed_primary authRows []) :=
    seed_primary_inv uid authRows [] (users_inv_nil uid) hprim
  have hinv1 := apply_secondary_inv uid "profile" profile_cols hcuP hc5P profileRows _ hinv0
  have hinv2 := apply_secondary_inv uid "enrollment" enrollment_cols hcuE hc5E enrollRows _ hinv1
  have hinv3 := apply_secondary_inv uid "certificate" certificate_cols hcuC hc5C certRows _ hinv2
  have hinv4 := apply_secondary_inv uid "id_map" id_map_cols hcuI hc5I idmapRows _ hinv3
  have hex : (lookupU (some uid)
      (apply_secondary "id_map" id_map_cols idmapRows
        (apply_secondary "certificate" certificate_cols certRows
          (apply_secondary "enrollment" enrollment_cols enrollRows
            (apply_secondary "profile" profile_cols profileRows
              (seed_primary authRows [])))))).isSome = true := by
    simp only [Bool.or_eq_true] at hsec
    rcases hsec with ((h | h) | h) | h
    · exact apply_secondary_isSome uid "id_map" id_map_cols idmapRows _
        (apply_secondary_isSome uid "certificate" certificate_cols certRows _
          (apply_secondary_isSome uid "enrollment" enrollment_cols enrollRows _
            (apply_secondary_creates uid "profile" profile_cols profileRows _ h)))
    · exact apply_secondary_isSome uid "id_map" id_map_cols idmapRows _
        (apply_secondary_isSome uid "certificate" certificate_cols certRows _
          (apply_secondary_creates uid "enrollment" enrollment_cols enrollRows _ h))
    · exact apply_secondary_isSome uid "id_map" id_map_cols idmapRows _
        (apply_secondary_creates uid "certificate" certificate_cols certRows _ h)
    · exact apply_secondary_creates uid "id_map" id_map_cols idmapRows _ h
  have hcount := countP_key_one uid _ hinv4.1 hex
  obtain ⟨hf, hfive⟩ := emit_users_spec canon pfloat schema uid hq1 hq2 hq3 _ out hok
    hinv4.2.1 hinv4.2.2
  exact ⟨hf.trans hcount, hfive⟩

/-- C6 (counterexample): a user whose id is the literal `"NULL"` and who
appears only in the `user_id_map` secondary source produces *no* output
record: the literal is normalized to the empty string and the row is then
dropped by the id guard, so no record keyed by that user's id is
emitted. -/
theorem c6_counterexample :
    make_user_info_combo get_sql_course_id py_float_str [] [] [] [] []
      [[("id_map_user_id", "NULL"), ("id_map_hash_id", "h")]] = Except.ok [] ∧
    join_value "id_map" [("id_map_user_id", "NULL"), ("id_map_hash_id", "h")] =
      some "NULL" := by
  exact ⟨rfl, rfl⟩

/-- The single secondary-source row of the C6 witness run. -/
def c6wProfileRow : RowS := [("profile_user_id", "7"), ("profile_name", "Bo")]

/-- The users-dict record built for user `"7"` in the C6 witness run. -/
def c6wRec : URec :=
  [("user_id", some "7"),
   ("profile_name", some "Bo"),
   ("profile_language", none),
   ("profile_location", none),
   ("profile_meta", none),
   ("profile_courseware", none),
   ("profile_gender", none),
   ("profile_mailing_address", none),
   ("profile_year_of_birth", none),
   ("profile_level_of_education", none),
   ("profile_goals", none),
   ("profile_allow_certificate", none),
   ("profile_country", none),
   ("profile_city", none)]

/-- C6 (witness): the amended theorem applied to a run whose only input is
one `auth_userprofile` row for user `"7"`: exactly one output record is
keyed `"7"`, and its primary-source columns are all empty strings. -/
theorem c6_witness :
    ((([build_outrow get_sql_course_id py_float_str c6wRec]).filter
        (row_user_id_is "7")).length = 1) ∧
    (∀ r ∈ [build_outrow get_sql_course_id py_float_str c6wRec],
      row_user_id_is "7" r = true →
      ∀ c ∈ primary_five, lookupR c r = some (JVal.str "")) := by
  have hok : make_user_info_combo get_sql_course_id py_float_str [] [] [c6wProfileRow]
      [] [] [] = Except.ok [build_outrow get_sql_course_id py_float_str c6wRec] := by
    have hstep : make_user_info_combo get_sql_course_id py_float_str [] [] [c6wProfileRow]
        [] [] [] = emit_users get_sql_course_id py_float_str []
          [(some "7", c6wRec)] := rfl
    rw [hstep]
    simp only [emit_users]
    rw [show (out_falsy (build_outrow get_sql_course_id py_float_str c6wRec) "user_id" &&
      out_falsy (build_outrow get_sql_course_id py_float_str c6wRec) "certificate_user_id")
      = false from rfl]
    simp only [Bool.false_eq_true, if_false]
    rw [check_record_schema_nil]
    rfl
  exact c6_secondary_only_user get_sql_course_id py_float_str [] [] [c6wProfileRow] [] [] []
    "7" [build_outrow get_sql_course_id py_float_str c6wRec]
    (by decide) (by decide) (by decide)
    (fun row hr => by cases hr)
    (by decide)
    hok

/-! ## Claim C7: literal NULL/null normalization in the tabular generators -/

/-- C7 (counterexample): `make_grades_persistent` compares only against
the exact literal `'NULL'`, so a lowercase `'null'` field survives
unchanged in its output instead of being normalized to null/empty —
contradicting the claim that every listed generator normalizes both
spellings. -/
theorem c7_counterexample :
    grades_persistent_val get_sql_course_id "percent_grade" "null" = some "null" ∧
    grades_persistent_val get_sql_course_id "percent_grade" "NULL" = none := by
  constructor
  · rfl
  · rfl

/-- C7 (amended): `make_student_module` normalizes any field whose
original value lower-cases to `"null"` (so both `'NULL'` and `'null'`) to
null; `make_user_info_combo` normalizes both literals to the empty string
for columns not routed through the course-id canonicalizer or the
certificate-grade reformatter; `make_grades_persistent` normalizes only
the exact uppercase literal `'NULL'` (on columns not containing
"course_id"), and leaves lowercase `'null'` untouched. -/
theorem c7_null_normalization (canon : String → String) (pfloat : String → Option String)
    (k v : String) :
    (Py.pyLower v = "null" → student_module_val canon k v = none) ∧
    (Py.pyIn "course_id" k = false → v = "NULL" → grades_persistent_val canon k v = none) ∧
    (Py.pyIn "course_id" k = false → v = "null" →
      grades_persistent_val canon k v = some "null") ∧
    (Py.pyIn "course_id" k = false → Py.pyIn "certificate_grade" k = false →
      (v = "NULL" ∨ v = "null") → uic_field_val canon pfloat k (some (some v)) = "") := by
  refine ⟨fun h => ?_, fun hk hv => ?_, fun hk hv => ?_, fun hk hg hv => ?_⟩
  · simp [student_module_val, h]
  · subst hv
    simp [grades_persistent_val, hk]
  · subst hv
    simp [grades_persistent_val, hk]
  · rcases hv with hv | hv <;> subst hv <;> simp [uic_field_val, hk, hg]

/-- C7 (witness): the amended theorem at concrete fields: a
`courseware_studentmodule` field `'NULL'` becomes null, a
`grades_persistent` field `'NULL'` becomes null while `'null'` survives,
and a `user_info_combo` field `'null'` becomes the empty string. -/
theorem c7_witness :
    student_module_val get_sql_course_id "grade" "NULL" = none ∧
    grades_persistent_val get_sql_course_id "percent_grade" "NULL" = none ∧
    grades_persistent_val get_sql_course_id "percent_grade" "null" = some "null" ∧
    uic_field_val get_sql_course_id py_float_str "username" (some (some "null")) = "" :=
  ⟨(c7_null_normalization get_sql_course_id py_float_str "grade" "NULL").1 (by rfl),
   (c7_null_normalization get_sql_course_id py_float_str "percent_grade" "NULL").2.1
     (by rfl) rfl,
   (c7_null_normalization get_sql_course_id py_float_str "percent_grade" "null").2.2.1
     (by rfl) rfl,
   (c7_null_normalization get_sql_course_id py_float_str "username" "null").2.2.2
     (by rfl) (by rfl) (Or.inr rfl)⟩

/-! ## Claim C8: `decrypt_file` error behaviour -/

/-- C8 (counterexample): a timeout of the external decrypt tool does not
raise a decryption error — `proc.wait(timeout=60)` raises `TimeoutExpired`,
which `decrypt_file` does not catch — contradicting the claim that a
decryption error carrying the captured stderr is raised whenever the tool
exceeds its timeout. -/
theorem c8_counterexample :
    decrypt_file "f.gpg" (ProcOutcome.timedOut "boom") =
      Except.error DecryptExc.timeoutExpired := rfl

/-- C8 (amended): `decrypt_file` raises a decryption error carrying the
captured (stripped) stderr text exactly when the external decrypt tool
exits with a non-zero code; when the tool exits with code 0 it returns
`True`; when the 60-second wait times out, the uncaught `TimeoutExpired`
propagates instead of a decryption error. -/
theorem c8_decrypt_file_error_behaviour (fname : String) (rc : Int) (err : String) :
    (rc ≠ 0 → decrypt_file fname (ProcOutcome.completed rc err) =
      Except.error (DecryptExc.decryptionError
        ("Failed to decrypt " ++ fname ++ ": " ++ String.mk (Py.stripWs err.data)))) ∧
    (rc = 0 → decrypt_file fname (ProcOutcome.completed rc err) = Except.ok true) ∧
    decrypt_file fname (ProcOutcome.timedOut err) = Except.error DecryptExc.timeoutExpired := by
  refine ⟨fun h => ?_, fun h => ?_, rfl⟩
  · simp [decrypt_file, h]
  · simp [decrypt_file, h]

/-- C8 (witness): the amended theorem evaluated at exit code 2 with stderr
`" oops "`, and at exit code 0. -/
theorem c8_witness :
    decrypt_file "a.gpg" (ProcOutcome.completed 2 " oops ") =
      Except.error (DecryptExc.decryptionError
        ("Failed to decrypt " ++ "a.gpg" ++ ": " ++ String.mk (Py.stripWs " oops ".data))) ∧
    decrypt_file "a.gpg" (ProcOutcome.completed 0 "") = Except.ok true :=
  ⟨(c8_decrypt_file_error_behaviour "a.gpg" 2 " oops ").1 (by decide),
   (c8_decrypt_file_error_behaviour "a.gpg" 0 "").2.1 rfl⟩

/-! ## Claim C9: `module_from_block` -/

/-- C9 (counterexample): the legacy branch uses `str.lstrip("i4x://")`,
which strips *characters from the set* `{i,4,x,:,/}`, not the literal
prefix: on `"i4x://x1/ab"` it also eats the `x` after the prefix, so the
result is not the id with exactly `"i4x://"` removed. -/
theorem c9_counterexample :
    module_from_block "i4x://x1/ab" = "1/ab" ∧ module_from_block "i4x://x1/ab" ≠ "x1/ab" := by
  constructor
  · rfl
  · decide

/-- C9 (amended): for a legacy id, `module_from_block` left-strips the
character set `{i,4,x,:,/}` — which coincides with removing exactly the
prefix whenever the remainder starts with a character outside that set —
and for a modern id (one not beginning with `"i4x://"`) it returns the
plus-delimited segments of the part after the last colon, each segment
keeping only the part after its last `@`, joined by `/` (dots are not
treated as delimiters). -/
theorem c9_module_from_block (c : Char) (rest : List Char) (b : String)
    (hc : c ∉ ['i', '4', 'x', ':', '/'])
    (hb : Py.pyStartswith b "i4x://" = false) :
    module_from_block (String.mk ('i' :: '4' :: 'x' :: ':' :: '/' :: '/' :: c :: rest)) =
      String.mk (c :: rest) ∧
    module_from_block b = module_suffix_spec b := by
  constructor
  · have hpre : Py.pyStartswith (String.mk ('i' :: '4' :: 'x' :: ':' :: '/' :: '/' :: c :: rest))
        "i4x://" = true := by
      simp only [Py.pyStartswith]
      rw [List.isPrefixOf_iff_prefix]
      exact List.prefix_append ['i', '4', 'x', ':', '/', '/'] (c :: rest)
    simp only [module_from_block, hpre, if_pos, Py.lstripChars]
    rw [List.dropWhile_cons_of_pos (by decide), List.dropWhile_cons_of_pos (by decide),
      List.dropWhile_cons_of_pos (by decide), List.dropWhile_cons_of_pos (by decide),
      List.dropWhile_cons_of_pos (by decide), List.dropWhile_cons_of_pos (by decide)]
    rw [List.dropWhile_cons_of_neg]
    simp [hc]
  · simp only [module_from_block, hb, Bool.false_eq_true, if_false, module_suffix_spec,
      Py.lastD_pySplitC]

/-- C9 (witness): the legacy half at `"i4x://MITx/6.002x/u/v"` (remainder
starting with `M`, outside the stripped set), and the modern half at a
standard modern block id. -/
theorem c9_witness :
    module_from_block (String.mk
        ('i' :: '4' :: 'x' :: ':' :: '/' :: '/' :: 'M' :: "ITx/6.002x/u/v".data)) =
      String.mk ('M' :: "ITx/6.002x/u/v".data) ∧
    module_from_block "block-v1:ORG+CS+2020+type@problem+block@abc" =
      module_suffix_spec "block-v1:ORG+CS+2020+type@problem+block@abc" :=
  ⟨(c9_module_from_block 'M' "ITx/6.002x/u/v".data "block-v1:ORG+CS+2020+type@problem+block@abc"
      (by decide) (by decide)).1,
   (c9_module_from_block 'M' "ITx/6.002x/u/v".data "block-v1:ORG+CS+2020+type@problem+block@abc"
      (by decide) (by decide)).2⟩

/-! ## Claim C10: `make_course_axis` ignores its `outname` argument -/

/-- C10: `make_course_axis` rebinds `outname` to the fixed path
`dirname/course_axis.json.gz` before writing, so its output is identical
for any two values of the parameter and the path of a successful run is
always `dirname ++ "/course_axis.json.gz"`. -/
theorem c10_outname_ignored :
    (∀ dirname o₁ o₂ st fuel,
      make_course_axis dirname o₁ st fuel = make_course_axis dirname o₂ st fuel) ∧
    (∀ dirname o st fuel res, make_course_axis dirname o st fuel = Except.ok res →
      res.1 = dirname ++ "/course_axis.json.gz") := by
  constructor
  · intro dirname o₁ o₂ st fuel
    rfl
  · intro dirname o st fuel res h
    unfold make_course_axis at h
    split at h
    · cases h
    · split at h
      · cases h
      · cases h
        rfl

/-! ## Claim C1: length, pre-order and index of the course axis -/

theorem process_length_eq_visit (data : CSMap) :
    ∀ fuel start parent,
      (process_course_structure data fuel start parent).length =
        (visitList data fuel start).length := by
  intro fuel
  induction fuel with
  | zero => intro start parent; rfl
  | succ fuel ih =>
    intro start parent
    simp only [process_course_structure, visitList, List.length_cons,
      List.length_flatten, List.map_map]
    have : (nodeGetD data start).children.map
          (List.length ∘ fun child => process_course_structure data fuel child (some start)) =
        (nodeGetD data start).children.map (List.length ∘ fun child => visitList data fuel child) := by
      refine List.map_congr_left ?_
      intro c _
      exact ih c (some start)
    rw [this]

theorem visit_toFinset (data : CSMap) :
    ∀ fuel start, (visitList data fuel start).toFinset = reachSet data fuel start := by
  intro fuel
  induction fuel with
  | zero => intro start; rfl
  | succ fuel ih =>
    intro start
    simp only [visitList, reachSet, List.toFinset_cons]
    congr 1
    induction (nodeGetD data start).children with
    | nil => rfl
    | cons c cs ihc =>
      simp only [List.map_cons, List.flatten_cons, List.toFinset_append, List.foldr_cons]
      rw [ihc, ih c]

theorem visit_subtree_decomposition (data : CSMap) :
    ∀ fuel start parent u, u ∈ visitList data fuel start →
      ∃ fuel' par l₁ l₂, fuel' ≠ 0 ∧
        process_course_structure data fuel start parent =
          l₁ ++ process_course_structure data fuel' u par ++ l₂ := by
  intro fuel
  induction fuel with
  | zero => intro start parent u hu; simp [visitList] at hu
  | succ fuel ih =>
    intro start parent u hu
    simp only [visitList, List.mem_cons] at hu
    rcases hu with rfl | hu
    · exact ⟨fuel + 1, parent, [], [], by omega, by simp⟩
    · rw [List.mem_flatten] at hu
      obtain ⟨l, hl, hul⟩ := hu
      rw [List.mem_map] at hl
      obtain ⟨c, hc, rfl⟩ := hl
      obtain ⟨fuel', par, m₁, m₂, hf0, hm⟩ := ih c (some start) u hul
      obtain ⟨as, bs, hsplit⟩ := List.append_of_mem hc
      refine ⟨fuel', par,
        axis_item data start parent ::
          ((as.map (fun child => process_course_structure data fuel child (some start))).flatten ++ m₁),
        m₂ ++ ((bs.map (fun child => process_course_structure data fuel child (some start))).flatten),
        hf0, ?_⟩
      simp only [process_course_structure, hsplit, List.map_append, List.map_cons,
        List.flatten_append, List.flatten_cons, hm]
      simp [List.append_assoc]

theorem second_pass_map_index (cid : String) (rv : CSNode) :
    ∀ items cm idx,
      (axis_second_pass cid rv items cm idx).map AxisRecord.index =
        List.range' idx items.length := by
  intro items
  induction items with
  | nil => intro cm idx; rfl
  | cons item rest ih =>
    intro cm idx
    simp only [axis_second_pass, List.map_cons, List.length_cons]
    rw [ih]
    rfl

theorem second_pass_length (cid : String) (rv : CSNode) (items : List AxisItem)
    (cm : Option String) (idx : Nat) :
    (axis_second_pass cid rv items cm idx).length = items.length := by
  have h := congrArg List.length (second_pass_map_index cid rv items cm idx)
  simpa using h

/-- Destructuring a successful `make_course_axis` run whose root search
found `(rb, rv)`. -/
theorem make_course_axis_ok (dirname outname : String) (st : CSMap) (fuel : Nat)
    (p : String) (out : List AxisRecord) (rb : String) (rv : CSNode)
    (hok : make_course_axis dirname outname st fuel = Except.ok (p, out))
    (hroot : st.find? (fun kv => kv.2.category == "course") = some (rb, rv)) :
    out = axis_second_pass (course_from_block rb) rv
      (process_course_structure st fuel rb none) none 1 := by
  unfold make_course_axis at hok
  rw [hroot] at hok
  split at hok
  · cases hok
  · rename_i rb' rv' heq
    injection heq with hpair
    cases hpair
    split at hok
    · cases hok
    · cases hok
      rfl

/-- C1 (amended): for a course-structure mapping with a (unique) root of
category `"course"`, when the `children` lists link the blocks into a tree
— the traversal visits no block id twice — and every visited block is
present, the record list built by `process_course_structure` from that
root has length equal to the number of block ids reachable from the root
(root included), the list is in pre-order (each visited block's subtree
records form one contiguous segment headed by that block's own record),
and the `index` values assigned by `make_course_axis` are exactly
`1, 2, 3, …` in list order. -/
theorem c1_course_axis_shape (dirname outname : String) (st : CSMap) (fuel : Nat)
    (p : String) (out : List AxisRecord) (rb : String) (rv : CSNode)
    (hok : make_course_axis dirname outname st fuel = Except.ok (p, out))
    (hroot : st.find? (fun kv => kv.2.category == "course") = some (rb, rv))
    (hnd : (visitList st fuel rb).Nodup)
    (hpresent : ∀ u ∈ visitList st fuel rb, (nodeGet st u).isSome) :
    out.length = (reachSet st fuel rb).card ∧
    (∀ u ∈ visitList st fuel rb, ∃ fuel' par l₁ l₂, fuel' ≠ 0 ∧
      process_course_structure st fuel rb none =
        l₁ ++ process_course_structure st fuel' u par ++ l₂) ∧
    out.map AxisRecord.index = List.range' 1 out.length := by
  have hout := make_course_axis_ok dirname outname st fuel p out rb rv hok hroot
  have hlen : out.length = (visitList st fuel rb).length := by
    rw [hout, second_pass_length, process_length_eq_visit]
  refine ⟨?_, ?_, ?_⟩
  · rw [hlen, ← List.toFinset_card_of_nodup hnd, visit_toFinset]
  · intro u hu
    exact visit_subtree_decomposition st fuel rb none u hu
  · rw [hout, second_pass_map_index, second_pass_length]

/-- The mapping refuting C1 as stated: the root's `children` list names
the same block twice, so the traversal emits three records while only two
blocks are reachable. -/
def stDupC1 : CSMap :=
  [("rootc", ⟨"course", [], ["a", "a"], none, none⟩),
   ("a", ⟨"vertical", [], [], none, none⟩)]

/-- C1 (counterexample): `stDupC1` contains a unique node of category
`"course"`, yet the record list built from its root has length 3 while
only 2 nodes are reachable from the root. -/
theorem c1_counterexample :
    (stDupC1.filter (fun kv => kv.2.category == "course")).length = 1 ∧
    (process_course_structure stDupC1 10 "rootc" none).length = 3 ∧
    (reachSet stDupC1 10 "rootc").card = 2 := by
  refine ⟨rfl, rfl, ?_⟩
  rfl

/-- The concrete three-node tree used by the C1 witness. -/
def axisT : CSMap :=
  [("r1", ⟨"course", [], ["u1", "u2"], none, none⟩),
   ("u1", ⟨"chapter", [], [], none, none⟩),
   ("u2", ⟨"vertical", [], [], none, none⟩)]

/-- C1 (witness): the amended theorem applied to a concrete three-node
tree: the axis has 3 records and indices `[1, 2, 3]`. -/
theorem c1_witness :
    ((make_course_axis "d" "o" axisT 3).toOption.getD ("", [])).2.length =
      (reachSet axisT 3 "r1").card ∧
    ((make_course_axis "d" "o" axisT 3).toOption.getD ("", [])).2.map AxisRecord.index =
      List.range' 1 ((make_course_axis "d" "o" axisT 3).toOption.getD ("", [])).2.length := by
  have h := c1_course_axis_shape "d" "o" axisT 3
    ((make_course_axis "d" "o" axisT 3).toOption.getD ("", [])).1
    ((make_course_axis "d" "o" axisT 3).toOption.getD ("", [])).2
    "r1" ⟨"course", [], ["u1", "u2"], none, none⟩ rfl rfl (by decide) (by decide)
  exact ⟨h.1, h.2.2⟩

/-! ## Claim C3: the chapter reference of axis records -/

/-- The module id of the last `"chapter"`-category item of a list (the
most recently seen chapter in traversal order), if any. -/
def last_chapter_ref : List AxisItem → Option String
  | [] => none
  | it :: l =>
    match last_chapter_ref l with
    | some m => some m
    | none => if it.category == "chapter" then some it.module_id else none

/-- `last_chapter_ref` with a fallback for lists containing no chapter. -/
def last_chapter_refD (cm : Option String) (l : List AxisItem) : Option String :=
  match last_chapter_ref l with
  | some m => some m
  | none => cm

theorem last_chapter_refD_none (l : List AxisItem) :
    last_chapter_refD none l = last_chapter_ref l := by
  unfold last_chapter_refD
  cases last_chapter_ref l <;> rfl

theorem last_chapter_refD_cons (cm : Option String) (it : AxisItem) (l : List AxisItem) :
    last_chapter_refD cm (it :: l) =
      last_chapter_refD (if it.category == "chapter" then some it.module_id else cm) l := by
  by_cases hc : it.category == "chapter" <;>
    cases he : last_chapter_ref l <;>
    simp [last_chapter_refD, last_chapter_ref, he, hc]

theorem second_pass_chapter_mid (cid : String) (rv : CSNode) :
    ∀ items cm idx i (h : i < (axis_second_pass cid rv items cm idx).length),
      ((axis_second_pass cid rv items cm idx).get ⟨i, h⟩).chapter_mid =
        last_chapter_refD cm (items.take (i + 1)) := by
  intro items
  induction items with
  | nil => intro cm idx i h; simp [axis_second_pass] at h
  | cons item rest ih =>
    intro cm idx i h
    cases i with
    | zero =>
      simp only [axis_second_pass, List.get, List.take, last_chapter_refD_cons]
      by_cases hc : item.category == "chapter" <;>
        simp [finalize_item, hc, last_chapter_refD, last_chapter_ref]
    | succ i =>
      have h' : i < (axis_second_pass cid rv rest
          (if item.category == "chapter" then some item.module_id else cm) (idx + 1)).length := by
        simp only [axis_second_pass, List.length_cons] at h
        omega
      have := ih (if item.category == "chapter" then some item.module_id else cm) (idx + 1) i h'
      simp only [axis_second_pass, List.get, List.take, last_chapter_refD_cons]
      exact this

/-- C3 (amended): for every record emitted by `make_course_axis`, the
chapter reference `chapter_mid` equals the module id of the most recently
seen record of category `"chapter"` at or before that record in traversal
order — not necessarily an ancestor of the record — and is null when no
chapter-category record has been seen yet. -/
theorem c3_chapter_mid_last_seen (dirname outname : String) (st : CSMap) (fuel : Nat)
    (p : String) (out : List AxisRecord) (rb : String) (rv : CSNode)
    (hok : make_course_axis dirname outname st fuel = Except.ok (p, out))
    (hroot : st.find? (fun kv => kv.2.category == "course") = some (rb, rv))
    (i : Nat) (h : i < out.length) :
    (out.get ⟨i, h⟩).chapter_mid =
      last_chapter_ref ((process_course_structure st fuel rb none).take (i + 1)) := by
  have hout := make_course_axis_ok dirname outname st fuel p out rb rv hok hroot
  subst hout
  rw [second_pass_chapter_mid, last_chapter_refD_none]

/-- The structure refuting C3 as stated: a chapter nested inside a sibling
subtree is "most recently seen" by a later record that it is not an
ancestor of. -/
def stC3 : CSMap :=
  [("rootc3", ⟨"course", [], ["chapA", "nodeB"], none, none⟩),
   ("chapA", ⟨"chapter", [], ["chapC"], none, none⟩),
   ("chapC", ⟨"chapter", [], [], none, none⟩),
   ("nodeB", ⟨"vertical", [], [], none, none⟩)]

/-- C3 (counterexample): in `stC3` the only block whose children contain
`"nodeB"` is the root, whose category is `"course"`, so `"nodeB"` has no
ancestor of category `"chapter"`; the claim then requires its chapter
reference to be null, but the emitted record carries `some "chapC"` — the
chapter most recently seen in traversal order, from a sibling subtree. -/
theorem c3_counterexample :
    ((make_course_axis "d" "o" stC3 10).toOption.getD ("", [])).2.map AxisRecord.url_name =
      ["rootc3", "chapA", "chapC", "nodeB"] ∧
    ((make_course_axis "d" "o" stC3 10).toOption.getD ("", [])).2.map AxisRecord.chapter_mid =
      [none, some "chapA", some "chapC", some "chapC"] ∧
    (stC3.filter (fun kv => kv.2.children.contains "nodeB")).map Prod.fst = ["rootc3"] ∧
    (nodeGetD stC3 "rootc3").category = "course" :=
  ⟨rfl, rfl, rfl, rfl⟩

/-- C3 (witness): the amended theorem applied to `stC3` at index 3: the
fourth record's `chapter_mid` is the module id of the most recently seen
chapter record among the first four items. -/
theorem c3_witness :
    (((make_course_axis "d" "o" stC3 10).toOption.getD ("", [])).2.get
        ⟨3, by decide⟩).chapter_mid =
      last_chapter_ref ((process_course_structure stC3 10 "rootc3" none).take 4) :=
  c3_chapter_mid_last_seen "d" "o" stC3 10
    ((make_course_axis "d" "o" stC3 10).toOption.getD ("", [])).1
    ((make_course_axis "d" "o" stC3 10).toOption.getD ("", [])).2
    "rootc3" ⟨"course", [], ["chapA", "nodeB"], none, none⟩ rfl rfl 3 (by decide)

/-- The concrete one-node course structure used by the C10 witness. -/
def axisW : CSMap := [("r1", ⟨"course", [], [], none, none⟩)]

/-- C10 (witness): at a concrete structure, two different `outname`
arguments give the same result, and the output path is the fixed one. -/
theorem c10_witness :
    make_course_axis "d" "other_name.json.gz" axisW 1 = make_course_axis "d" "x" axisW 1 ∧
    ((make_course_axis "d" "other_name.json.gz" axisW 1).toOption.getD ("", [])).1 =
      "d" ++ "/course_axis.json.gz" :=
  ⟨c10_outname_ignored.1 "d" "other_name.json.gz" "x" axisW 1,
   c10_outname_ignored.2 "d" "other_name.json.gz" axisW 1
     ((make_course_axis "d" "other_name.json.gz" axisW 1).toOption.getD ("", [])) (by rfl)⟩
